import Mathlib

/-!
Verification development for the path-tracing renderer.

Shallow embedding conventions:
* `f32` scalars are embedded as exact rationals `ℚ` wherever the code only
  does field arithmetic and comparisons.  Where the code relies on the IEEE
  special values (the AABB slab test, interval bounds that are set to
  `f32::INFINITY`, light distances), scalars are embedded as `EF`, a carrier
  extending `ℚ` with `nan`, `+inf` and `-inf` and with IEEE-like operation
  rules (exact arithmetic on finite values; no rounding, no signed zero).
* transcendental primitives (`sqrt`, `exp`, `ln`, trigonometry) are passed
  in as a `FloatFns` record; concrete evaluations instantiate it with
  `Rat.sqrt` (exact on perfect squares) and the theorems hold for every
  instantiation, showing they do not depend on the numeric details.
* `rand` draws are embedded as reading successive values from an explicit
  stream threaded through the computation.
* a Rust `panic!` is embedded as `Option.none` of the surrounding function.
-/

namespace PT

/-- Extended float: rationals together with the IEEE special values used by
the renderer (`NaN`, `+inf`, `-inf`).  There is no signed zero: the single
`fin 0` behaves as `+0.0`. -/
inductive EF where
  | nan : EF
  | pinf : EF
  | ninf : EF
  | fin : ℚ → EF
deriving DecidableEq, Repr

namespace EF

/-- IEEE `<=`: any comparison with NaN is false. -/
def le : EF → EF → Bool
  | nan, _ => false
  | _, nan => false
  | ninf, _ => true
  | _, ninf => false
  | _, pinf => true
  | pinf, _ => false
  | fin a, fin b => a ≤ b

/-- IEEE `<`: any comparison with NaN is false. -/
def lt : EF → EF → Bool
  | nan, _ => false
  | _, nan => false
  | _, ninf => false
  | ninf, _ => true
  | pinf, _ => false
  | _, pinf => true
  | fin a, fin b => a < b

/-- Rust `f32::max`: if one operand is NaN the other is returned. -/
def fmax : EF → EF → EF
  | nan, b => b
  | a, nan => a
  | a, b => if le a b then b else a

/-- Rust `f32::min`: if one operand is NaN the other is returned. -/
def fmin : EF → EF → EF
  | nan, b => b
  | a, nan => a
  | a, b => if le a b then a else b

/-- IEEE addition on the extended carrier (exact on finite values). -/
def add : EF → EF → EF
  | nan, _ => nan
  | _, nan => nan
  | pinf, ninf => nan
  | ninf, pinf => nan
  | pinf, _ => pinf
  | _, pinf => pinf
  | ninf, _ => ninf
  | _, ninf => ninf
  | fin a, fin b => fin (a + b)

/-- IEEE subtraction on the extended carrier (exact on finite values). -/
def sub : EF → EF → EF
  | nan, _ => nan
  | _, nan => nan
  | pinf, pinf => nan
  | ninf, ninf => nan
  | pinf, _ => pinf
  | _, pinf => ninf
  | ninf, _ => ninf
  | _, ninf => pinf
  | fin a, fin b => fin (a - b)

/-- IEEE multiplication: zero times an infinity is NaN; signs propagate.
Without signed zero, `fin 0 * fin q = fin 0` for every finite `q`. -/
def mul : EF → EF → EF
  | nan, _ => nan
  | _, nan => nan
  | pinf, pinf => pinf
  | pinf, ninf => ninf
  | ninf, pinf => ninf
  | ninf, ninf => pinf
  | pinf, fin b => if b = 0 then nan else if 0 < b then pinf else ninf
  | fin a, pinf => if a = 0 then nan else if 0 < a then pinf else ninf
  | ninf, fin b => if b = 0 then nan else if 0 < b then ninf else pinf
  | fin a, ninf => if a = 0 then nan else if 0 < a then ninf else pinf
  | fin a, fin b => fin (a * b)

/-- IEEE division.  With no signed zero, a nonzero numerator over zero gives
an infinity by the numerator sign (this matches dividing by `+0.0`), and
`0/0` gives NaN. -/
def div : EF → EF → EF
  | nan, _ => nan
  | _, nan => nan
  | pinf, pinf => nan
  | pinf, ninf => nan
  | ninf, pinf => nan
  | ninf, ninf => nan
  | pinf, fin b => if 0 ≤ b then pinf else ninf
  | ninf, fin b => if 0 ≤ b then ninf else pinf
  | fin _, pinf => fin 0
  | fin _, ninf => fin 0
  | fin a, fin b =>
      if b = 0 then (if a = 0 then nan else if 0 < a then pinf else ninf)
      else fin (a / b)

/-- Whether the value is neither NaN nor an infinity. -/
def isFinite : EF → Bool
  | fin _ => true
  | _ => false

end EF

/-- Closed numeric range, `src/interval.rs`.  The bounds are `EF` because the
renderer builds intervals whose upper bound is `f32::INFINITY`. -/
structure Interval where
  min : EF
  max : EF
deriving DecidableEq, Repr

/-- Constructor `Interval::new`. -/
def Interval.new (min max : EF) : Interval := ⟨min, max⟩

/-- Method `Interval::size`. -/
def Interval.size (i : Interval) : EF := EF.sub i.max i.min

/-- Method `Interval::expand`. -/
def Interval.expand (i : Interval) (delta : ℚ) : Interval :=
  ⟨EF.sub i.min (.fin delta), EF.add i.max (.fin delta)⟩

/-- Method `Interval::contains`.  All values tested by the shapes are finite
rationals, so the argument is `ℚ`. -/
def Interval.contains (i : Interval) (val : ℚ) : Bool :=
  (EF.le i.min (.fin val)) && (EF.le (.fin val) i.max)

/-- Three-component vector over exact rationals (embeds `glam::Vec3A`, used
for points, directions, normals and colors). -/
structure Vec3 where
  x : ℚ
  y : ℚ
  z : ℚ
deriving DecidableEq, Repr

namespace Vec3

def add (a b : Vec3) : Vec3 := ⟨a.x + b.x, a.y + b.y, a.z + b.z⟩

def sub (a b : Vec3) : Vec3 := ⟨a.x - b.x, a.y - b.y, a.z - b.z⟩

def neg (a : Vec3) : Vec3 := ⟨-a.x, -a.y, -a.z⟩

/-- Componentwise product (`glam` multiplies vectors componentwise). -/
def hadamard (a b : Vec3) : Vec3 := ⟨a.x * b.x, a.y * b.y, a.z * b.z⟩

def smul (q : ℚ) (a : Vec3) : Vec3 := ⟨q * a.x, q * a.y, q * a.z⟩

def sdiv (a : Vec3) (q : ℚ) : Vec3 := ⟨a.x / q, a.y / q, a.z / q⟩

def dot (a b : Vec3) : ℚ := a.x * b.x + a.y * b.y + a.z * b.z

def cross (a b : Vec3) : Vec3 :=
  ⟨a.y * b.z - a.z * b.y, a.z * b.x - a.x * b.z, a.x * b.y - a.y * b.x⟩

def length_squared (a : Vec3) : ℚ := a.dot a

def splat (q : ℚ) : Vec3 := ⟨q, q, q⟩

/-- Componentwise minimum, `Vec3A::min`. -/
def vmin (a b : Vec3) : Vec3 := ⟨min a.x b.x, min a.y b.y, min a.z b.z⟩

/-- Element sum, `Vec3A::element_sum`. -/
def element_sum (a : Vec3) : ℚ := a.x + a.y + a.z

/-- In the exact-rational embedding every vector is finite, so the
`is_finite` guards of the renderer always pass. -/
def is_finite (_ : Vec3) : Bool := true

instance : Add Vec3 := ⟨Vec3.add⟩

instance : Sub Vec3 := ⟨Vec3.sub⟩

instance : Neg Vec3 := ⟨Vec3.neg⟩

instance : Mul Vec3 := ⟨Vec3.hadamard⟩

instance : HMul ℚ Vec3 Vec3 := ⟨Vec3.smul⟩

instance : HMul Vec3 ℚ Vec3 := ⟨fun a q => Vec3.smul q a⟩

instance : HDiv Vec3 ℚ Vec3 := ⟨Vec3.sdiv⟩

instance : HSub ℚ Vec3 Vec3 := ⟨fun q a => Vec3.sub (Vec3.splat q) a⟩

instance : Zero Vec3 := ⟨⟨0, 0, 0⟩⟩

/-- The `mul_add` fused form `a.mul_add(b, c) = a * b + c` (exact here). -/
def mul_add (a b c : Vec3) : Vec3 := a.hadamard b + c

/-- Linear interpolation `a.lerp(b, t) = a + (b - a) * t`. -/
def lerp (a b : Vec3) (t : ℚ) : Vec3 := a + (b - a) * t

/-- Reflection `v.reflect(n) = v - 2 (v·n) n` (`glam`). -/
def reflect (v n : Vec3) : Vec3 := v - (2 * (v.dot n)) * n

end Vec3

/-- Record of the transcendental `f32` primitives the code calls.  The
embedding is parameterized by it; theorems hold for every instantiation. -/
structure FloatFns where
  sqrt : ℚ → ℚ
  exp : ℚ → ℚ
  ln : ℚ → ℚ
  atan : ℚ → ℚ
  sin : ℚ → ℚ
  cos : ℚ → ℚ
  acos : ℚ → ℚ
  atan2 : ℚ → ℚ → ℚ

/-- Instantiation used for concrete evaluations: the square root is
`Rat.sqrt`, exact on the perfect squares arising in the test inputs; the
other primitives never influence the verified outputs there. -/
def exactFns : FloatFns where
  sqrt := Rat.sqrt
  exp := fun _ => 0
  ln := fun _ => 0
  atan := fun _ => 0
  sin := fun _ => 0
  cos := fun _ => 0
  acos := fun _ => 0
  atan2 := fun _ _ => 0

/-- Vector length, `sqrt (v · v)`. -/
def Vec3.length (fns : FloatFns) (v : Vec3) : ℚ := fns.sqrt v.length_squared

/-- Unit vector `v / |v|` (division by a zero length yields the zero vector
in `ℚ`, where `f32` would yield non-finite components). -/
def Vec3.normalize (fns : FloatFns) (v : Vec3) : Vec3 := v / v.length fns

/-- Sign function mirroring `f32::signum` (without `-0.0`, zero has sign 1). -/
def signum (q : ℚ) : ℚ := if q < 0 then -1 else 1

/-- Mirror of `f32::is_sign_positive` (without `-0.0`, zero counts positive). -/
def is_sign_positive (q : ℚ) : Bool := 0 ≤ q

/-- Mirror of `f32::is_sign_negative` (without `-0.0`). -/
def is_sign_negative (q : ℚ) : Bool := q < 0

/-- Exact value of the `f32` literal `1e-3` used for the shadow-acne bounds. -/
def eps3 : ℚ := 8589935 / 8589934592

/-- Exact value of `f32::EPSILON`. -/
def f32Epsilon : ℚ := 1 / 8388608

/-- Exact value of `f32::consts::PI`. -/
def f32PI : ℚ := 13176795 / 4194304

/-- Exact value of `f32::consts::FRAC_1_PI`. -/
def f32FracOnePI : ℚ := 10680707 / 33554432

/-- Exact value of the `f32` literal `1e-4` (minimal AABB padding). -/
def eps4 : ℚ := 13743895 / 137438953472

/-- Ray `{origin, direction, time}` (`src/math.rs`; the current code stores
the fields as `ori`, `dir` and `t`, with `t` the shutter time). -/
structure Ray where
  ori : Vec3
  dir : Vec3
  t : ℚ
deriving DecidableEq, Repr

/-- Constructor `Ray::new`. -/
def Ray.new (ori dir : Vec3) (t : ℚ) : Ray := ⟨ori, dir, t⟩

/-- Method `Ray::at`: `origin + t * direction`. -/
def Ray.at (r : Ray) (t : ℚ) : Vec3 := r.ori + t * r.dir

/-- Component of the ray origin along a coordinate axis. -/
def Ray.oriAxis (r : Ray) : ℕ → ℚ
  | 0 => r.ori.x
  | 1 => r.ori.y
  | _ => r.ori.z

/-- Component of the ray direction along a coordinate axis. -/
def Ray.dirAxis (r : Ray) : ℕ → ℚ
  | 0 => r.dir.x
  | 1 => r.dir.y
  | _ => r.dir.z

/-- Axis-aligned bounding box as three per-axis intervals, the
representation the current `bvh.rs` and `shape.rs` destructure. -/
structure Aabb where
  x : Interval
  y : Interval
  z : Interval
deriving DecidableEq, Repr

namespace Aabb

/-- Constructor `Aabb::new` from three axis intervals. -/
def new (x y z : Interval) : Aabb := ⟨x, y, z⟩

/-- Method `Aabb::axis_interval` selecting the interval of an axis index
(the BVH comparator passes 0, 1, 2). -/
def axis_interval (b : Aabb) : ℕ → Interval
  | 0 => b.x
  | 1 => b.y
  | _ => b.z

/-- Modelled from the spec: `from_points` builds the box spanned by two
corner points via componentwise min and max (the current `aabb.rs` with this
constructor is not in the snapshot). -/
def from_points (p q : Vec3) : Aabb :=
  ⟨⟨EF.fmin (.fin p.x) (.fin q.x), EF.fmax (.fin p.x) (.fin q.x)⟩,
   ⟨EF.fmin (.fin p.y) (.fin q.y), EF.fmax (.fin p.y) (.fin q.y)⟩,
   ⟨EF.fmin (.fin p.z) (.fin q.z), EF.fmax (.fin p.z) (.fin q.z)⟩⟩

/-- Method `Aabb::surrounding_box`: the minimal box containing both, by
componentwise min and max of the bounds (as in `src/aabb.rs`). -/
def surrounding_box (a b : Aabb) : Aabb :=
  ⟨⟨EF.fmin a.x.min b.x.min, EF.fmax a.x.max b.x.max⟩,
   ⟨EF.fmin a.y.min b.y.min, EF.fmax a.y.max b.y.max⟩,
   ⟨EF.fmin a.z.min b.z.min, EF.fmax a.z.max b.z.max⟩⟩

/-- Modelled from the spec: `longest_axis` returns the axis index of the
largest extent, ties broken toward the lowest index. -/
def longest_axis (b : Aabb) : ℕ :=
  let sx := b.x.size
  let sy := b.y.size
  let sz := b.z.size
  if EF.le sy sx && EF.le sz sx then 0
  else if EF.le sz sy then 1 else 2

/-- Modelled from the spec: `padding_to_minimal` pads every axis whose
extent is below the minimal thickness `1e-4` so the box of a flat shape is
not degenerate (the spec only requires the box to contain the shape, which
the padding preserves). -/
def padding_to_minimal (b : Aabb) : Aabb :=
  let pad := fun (i : Interval) =>
    if EF.lt i.size (.fin eps4) then i.expand (eps4 / 2) else i
  ⟨pad b.x, pad b.y, pad b.z⟩

/-- One axis of the slab test of `Aabb::intersect` (`src/aabb.rs` lines
28-41): compute the two slab parameters, orient them, narrow the running
`[t_min, t_max]`, and fail as soon as the interval is empty (`none`). -/
def slabAxis (b : Aabb) (r : Ray) (i : ℕ) (acc : EF × EF) : Option (EF × EF) :=
  let invD := EF.div (.fin 1) (.fin (r.dirAxis i))
  let t0 := EF.mul (EF.sub (b.axis_interval i).min (.fin (r.oriAxis i))) invD
  let t1 := EF.mul (EF.sub (b.axis_interval i).max (.fin (r.oriAxis i))) invD
  let p := if EF.lt invD (.fin 0) then (t1, t0) else (t0, t1)
  let tmin := EF.fmax acc.1 p.1
  let tmax := EF.fmin acc.2 p.2
  if EF.le tmax tmin then none else some (tmin, tmax)

/-- The slab-test loop over a list of axes. -/
def slabFold (b : Aabb) (r : Ray) : List ℕ → EF × EF → Bool
  | [], _ => true
  | i :: rest, acc =>
      match b.slabAxis r i acc with
      | none => false
      | some acc2 => b.slabFold r rest acc2

/-- Method `Aabb::intersect` (the slab test of `src/aabb.rs`, with the
running interval seeded from the query interval as the current callers in
`bvh.rs` require). -/
def intersect (b : Aabb) (r : Ray) (rayT : Interval) : Bool :=
  b.slabFold r [0, 1, 2] (rayT.min, rayT.max)

end Aabb

end PT

namespace PT

/-- Explicit stream of pseudo-random draws: each primitive draw reads the
next value.  This embeds both the `StdRng` threaded by reference and the
thread-local `random()` helper as one explicit stream. -/
structure Rng where
  vals : ℕ → ℚ
  pos : ℕ

/-- One uniform draw from the stream (embeds `rng.random::<f32>()` and the
free function `random()`). -/
def Rng.next (g : Rng) : ℚ × Rng := (g.vals g.pos, { g with pos := g.pos + 1 })

/-- Embeds `rng.random_bool(p)`: draw and compare with the probability. -/
def Rng.random_bool (g : Rng) (p : ℚ) : Bool × Rng :=
  let (u, g2) := g.next
  (u < p, g2)

/-- Embeds `UnitCircle.sample(rng)`: the two coordinates of the sampled
point on the unit circle are read from the stream. -/
def Rng.unitCircle (g : Rng) : (ℚ × ℚ) × Rng :=
  let (x, g2) := g.next
  let (y, g3) := g2.next
  ((x, y), g3)

/-- Modelled from the spec: cosine-weighted hemisphere sample (the
`math::vec3` helper module is not in the snapshot).  Consumes two draws. -/
def random_cosine_weight_on_hemisphere (fns : FloatFns) (g : Rng) : Vec3 × Rng :=
  let (r1, g2) := g.next
  let (r2, g3) := g2.next
  let phi := 2 * f32PI * r1
  (⟨fns.cos phi * fns.sqrt r2, fns.sin phi * fns.sqrt r2, fns.sqrt (1 - r2)⟩, g3)

/-- Exact value of the `f32` literal `0.9` (ONB axis selection). -/
def f32c09 : ℚ := 7549747 / 8388608

/-- Exact value of the `f32` literal `0.2` (minimum specular probability). -/
def f32c02 : ℚ := 13421773 / 67108864

/-- Exact value of the `f32` literal `1e-2` (roughness clamp floor). -/
def eps2 : ℚ := 5368709 / 536870912

/-- Exact value of the `f32` literal `1e-6` (refraction-index offset). -/
def eps6 : ℚ := 8796093 / 8796093022208

/-- Ortho-normal basis, `src/onb.rs`. -/
structure ONB where
  u : Vec3
  v : Vec3
  w : Vec3
deriving DecidableEq, Repr

/-- Constructor `ONB::new`. -/
def ONB.new (fns : FloatFns) (n : Vec3) : ONB :=
  let w := n.normalize fns
  let r := if |w.x| > f32c09 then Vec3.mk 0 1 0 else Vec3.mk 1 0 0
  let v := (w.cross r).normalize fns
  let u := w.cross v
  ⟨u, v, w⟩

/-- Method `ONB::transform`. -/
def ONB.transform (o : ONB) (vec : Vec3) : Vec3 :=
  vec.x * o.u + vec.y * o.v + vec.z * o.w

/-- Rust `f32::clamp`. -/
def qclamp (v lo hi : ℚ) : ℚ := if v < lo then lo else if v > hi then hi else v

/-- Scalar linear interpolation `a.lerp(b, t) = a + (b - a) * t`. -/
def qlerp (a b t : ℚ) : ℚ := a + (b - a) * t

/-- The color constant `BLACK` of the (absent) `color` module. -/
def BLACK : Vec3 := ⟨0, 0, 0⟩

/-- The color constant `WHITE` of the (absent) `color` module. -/
def WHITE : Vec3 := ⟨1, 1, 1⟩

/-- Material parameters, `src/material.rs`. -/
structure Material where
  color : Vec3
  roughness : ℚ
  metallic : ℚ
  index : ℚ
  emittance : ℚ
  transparent : Bool
deriving DecidableEq, Repr

/-- Constructor `Material::base` with sanitized roughness and index. -/
def Material.base (index roughness : ℚ) : Material where
  color := WHITE
  roughness := qclamp roughness eps2 1
  metallic := 0
  index := index + eps6
  emittance := 0
  transparent := false

/-- Constructor `Material::specular`. -/
def Material.specular (color : Vec3) (roughness : ℚ) : Material :=
  { Material.base 1 roughness with color := color }

/-- Constructor `Material::diffuse`. -/
def Material.diffuse (color : Vec3) : Material :=
  { Material.base 1 1 with color := color }

/-- Constructor `Material::clear`. -/
def Material.clear (index roughness : ℚ) : Material :=
  { Material.base index roughness with transparent := true }

/-- Constructor `Material::metallic` (named apart from the field). -/
def Material.metallicMat (color : Vec3) (roughness : ℚ) : Material :=
  { Material.base 1 roughness with color := color, metallic := 1 }

/-- Constructor `Material::light`. -/
def Material.light (color : Vec3) (emittance : ℚ) : Material :=
  { Material.base 1 1 with color := color, emittance := emittance }

/-- Constructor `Material::transparent` (named apart from the field). -/
def Material.transparentMat (color : Vec3) (index roughness : ℚ) : Material :=
  { Material.base index roughness with color := color, transparent := true }

/-- Beckmann normal-distribution function, `ndf::beckmann`. -/
def ndf_beckmann (fns : FloatFns) (roughness nh : ℚ) : ℚ :=
  let m2 := roughness * roughness
  let nh2 := nh * nh
  let tan2_t := (1 - nh2) / nh2
  fns.exp (-tan2_t / m2) / (f32PI * m2 * nh2 * nh2)

/-- Schlick Fresnel approximation, `fresnel::schlick`. -/
def fresnel_schlick (index : ℚ) (color : Vec3) (metallic h_dot_v : ℚ) : Vec3 :=
  let f0 := ((index - 1) / (index + 1)) ^ 2
  let f0v := (Vec3.splat f0).lerp color metallic
  ((1 : ℚ) - f0v).mul_add (Vec3.splat ((1 - h_dot_v) ^ 5)) f0v

/-- Smith geometry term with Schlick-GGX, `gf::smith_schlick_ggx`. -/
def gf_smith_schlick_ggx (roughness : ℚ) (n l v : Vec3) : ℚ :=
  let k := roughness ^ 2 / 2
  let g := fun (w : Vec3) =>
    let n_dot_w := |n.dot w|
    n_dot_w / (n_dot_w * (1 - k) + k)
  g l * g v

/-- Method `Material::bsdf` (`src/material.rs` lines 188-257). -/
def Material.bsdf (m : Material) (fns : FloatFns) (l v n : Vec3)
    (front_face : Bool) : Vec3 :=
  let n_dot_l := n.dot l
  let n_dot_v := n.dot v
  let l_outside := is_sign_positive n_dot_l
  let v_outside := is_sign_positive n_dot_v
  if l_outside == v_outside then
    let h := (l + v).normalize fns
    let n_dot_h := n.dot h
    let h_dot_v := v.dot h
    let d := ndf_beckmann fns m.roughness n_dot_h
    let f := if !l_outside && fns.sqrt (1 - n_dot_v * n_dot_v) * m.index > 1
      then Vec3.splat 1
      else fresnel_schlick m.index m.color m.metallic h_dot_v
    let g := gf_smith_schlick_ggx m.roughness n l v
    let specular := d * f * g / (4 * n_dot_v * n_dot_l)
    if m.transparent then specular
    else
      let diffuse := ((1 : ℚ) - f) * m.color * f32FracOnePI
      specular + diffuse
  else
    let eta_t := if front_face then m.index else 1 / m.index
    let h := -((l * eta_t + v).normalize fns)
    let n_dot_h := n.dot h
    let h_dot_v := v.dot h
    let h_dot_l := l.dot h
    let d := ndf_beckmann fns m.roughness n_dot_h
    let f := fresnel_schlick m.index m.color m.metallic |h_dot_v|
    let g := gf_smith_schlick_ggx m.roughness n l v
    let btdf := |h_dot_l * h_dot_v / (n_dot_l * n_dot_v)| *
      (((1 : ℚ) - f) * d * g / ((eta_t * h_dot_l + h_dot_v) ^ 2))
    btdf * m.color

/-- Beckmann half-vector sampler of `Material::scatter` (three draws: one
for the inverse-transform angle, two for the unit-circle point). -/
def beckmann_sample (fns : FloatFns) (m2 : ℚ) (world_onb : ONB) (g : Rng) :
    Vec3 × Rng :=
  let (u, g2) := g.next
  let theta := fns.atan (fns.sqrt (-m2 * fns.ln u))
  let sin_t := fns.sin theta
  let cos_t := fns.cos theta
  let (xy, g3) := g2.unitCircle
  (world_onb.transform ⟨xy.1 * sin_t, xy.2 * sin_t, cos_t⟩, g3)

/-- Beckmann pdf of a half vector, the `beckmann_pdf` closure in
`Material::scatter`. -/
def beckmann_pdf (fns : FloatFns) (m2 : ℚ) (n h : Vec3) : ℚ :=
  let cos_t := |n.dot h|
  let sin_t := fns.sqrt (1 - cos_t ^ 2)
  (f32PI * m2 * cos_t ^ 3)⁻¹ * fns.exp (-(sin_t / cos_t) ^ 2 / m2)

/-- Method `Material::scatter` (`src/material.rs` lines 262-351).  The
early `return None` on total internal reflection becomes the `none` result;
the advanced random stream is returned alongside. -/
def Material.scatter (m : Material) (fns : FloatFns) (g : Rng) (n v : Vec3)
    (front_face : Bool) : Option (Vec3 × ℚ) × Rng :=
  let m2 := m.roughness * m.roughness
  let world_onb := ONB.new fns n
  let eta_t := if front_face then m.index else 1 / m.index
  let f0 := ((m.index - 1) / (m.index + 1)) ^ 2
  let f1 := qlerp f0 (m.color.element_sum / 3) m.metallic
  let f := if f1 > eps3 then qlerp f32c02 1 f1 else f1
  let (spec, g1) := g.random_bool f
  let step :=
    if spec then
      let (h, g2) := beckmann_sample fns m2 world_onb g1
      (some (-(v.reflect h)), g2)
    else if !m.transparent then
      let (dir, g2) := random_cosine_weight_on_hemisphere fns g1
      (some (world_onb.transform dir), g2)
    else
      let (h, g2) := beckmann_sample fns m2 world_onb g1
      let cos_v := h.dot v
      let v_perp := v - h * cos_v
      let l_perp := -v_perp / eta_t
      let sin2_l := l_perp.length_squared
      if sin2_l > 1 then (none, g2)
      else
        let cos_l := fns.sqrt (1 - sin2_l)
        (some ((-(signum cos_v)) * h * cos_l + l_perp), g2)
  match step with
  | (none, g2) => (none, g2)
  | (some l, g2) =>
      let pdf1 :=
        let h := (l + v).normalize fns
        let p_h := beckmann_pdf fns m2 n h
        f * p_h / (4 * |h.dot v|)
      let pdf2 :=
        if !m.transparent then
          (1 - f) * |n.dot l| * f32FracOnePI
        else if is_sign_positive (n.dot v) != is_sign_positive (n.dot l) then
          let h := -((l * eta_t + v).normalize fns)
          let h_dot_v := h.dot v
          let h_dot_l := h.dot l
          let jacobian := |h_dot_v| / ((eta_t * h_dot_l + h_dot_v) ^ 2)
          let p_h := beckmann_pdf fns m2 n h
          (1 - f) * p_h * jacobian
        else 0
      (some (l, pdf1 + pdf2), g2)

end PT

namespace PT

/-- Intersection record, `src/shape.rs`. -/
structure HitRecord where
  p : Vec3
  t : ℚ
  normal : Vec3
  front_face : Bool
  material : Option Material
  u : ℚ
  v : ℚ
deriving DecidableEq, Repr

instance : Inhabited HitRecord := ⟨⟨0, 0, 0, false, none, 0, 0⟩⟩

/-- Rust `HitRecord::default()`. -/
def HitRecord.default : HitRecord := ⟨0, 0, 0, false, none, 0, 0⟩

/-- Method `HitRecord::set_face_normal` (`src/shape.rs` lines 72-79): the
mutation of the record becomes the updated record. -/
def HitRecord.set_face_normal (rec : HitRecord) (r : Ray) (outward_normal : Vec3) :
    HitRecord :=
  let front_face := r.dir.dot outward_normal < 0
  { rec with
    front_face := front_face
    normal := if front_face then outward_normal else -outward_normal }

/-- Sphere, `src/shape/sphere.rs`: center ray, signed radius and cached box. -/
structure Sphere where
  center : Ray
  radius : ℚ
  aabb : Aabb
deriving DecidableEq, Repr

/-- Constructor `Sphere::new`. -/
def Sphere.new (center_from : Vec3) (center_to : Option Vec3) (radius : ℚ) :
    Sphere :=
  let r := |radius|
  let radius_vec := Vec3.splat r
  let pair :=
    match center_to with
    | none =>
        (Vec3.splat 0,
         Aabb.from_points (center_from - radius_vec) (center_from + radius_vec))
    | some ct =>
        let box_from :=
          Aabb.from_points (center_from - radius_vec) (center_from + radius_vec)
        let box_to := Aabb.from_points (ct - radius_vec) (ct + radius_vec)
        (ct - center_from, Aabb.surrounding_box box_from box_to)
  ⟨Ray.new center_from pair.1 0, radius, pair.2⟩

/-- Function `Sphere::get_sphere_uv`. -/
def Sphere.get_sphere_uv (fns : FloatFns) (p : Vec3) : ℚ × ℚ :=
  let p := p.normalize fns
  let phi := fns.atan2 (-p.z) p.x + f32PI
  let theta := fns.acos (-p.y)
  (phi / (2 * f32PI), theta / f32PI)

/-- Method `Sphere::intersect` (`src/shape/sphere.rs` lines 68-99). -/
def Sphere.intersect (s : Sphere) (fns : FloatFns) (r : Ray) (ray_t : Interval) :
    Option HitRecord :=
  let current_center := s.center.at r.t
  let oc := r.ori - current_center
  let a := r.dir.length_squared
  let frac_b_2 := r.dir.dot oc
  let c := s.radius * (-s.radius) + oc.length_squared
  let discriminant := frac_b_2 * frac_b_2 + (-(a * c))
  if is_sign_negative discriminant then none
  else
    let sqrt_d := fns.sqrt discriminant
    let root1 := (-frac_b_2 - sqrt_d) / a
    let root2 := (-frac_b_2 + sqrt_d) / a
    let pick :=
      if ray_t.contains root1 then some root1
      else if ray_t.contains root2 then some root2
      else none
    match pick with
    | none => none
    | some root =>
        let rec0 := { HitRecord.default with t := root, p := r.at root }
        let normal := (rec0.p - current_center) / s.radius
        let rec1 := rec0.set_face_normal r normal
        let uv := Sphere.get_sphere_uv fns normal
        some { rec1 with u := uv.1, v := uv.2 }

/-- Method `Sphere::sample` (`src/shape/sphere.rs` lines 102-112). -/
def Sphere.sample (s : Sphere) (fns : FloatFns) (target : Vec3) (g : Rng) :
    (Vec3 × Vec3 × ℚ) × Rng :=
  let (p, g2) := random_cosine_weight_on_hemisphere fns g
  let n := (target - s.center.ori).normalize fns
  let world_onb := ONB.new fns n
  let world_p := world_onb.transform p * s.radius + s.center.ori
  ((world_p, n, p.z * f32FracOnePI / (s.radius * s.radius)), g2)

/-- Quad, `src/shape/quad.rs`: origin, edge basis, cached plane data. -/
structure Quad where
  origin : Vec3
  u : Vec3
  v : Vec3
  normal : Vec3
  area : ℚ
  D : ℚ
  w : Vec3
  aabb : Aabb
deriving DecidableEq, Repr

/-- Constructor `Quad::new`. -/
def Quad.new (fns : FloatFns) (origin u v : Vec3) : Quad :=
  let n := u.cross v
  let area := n.length fns
  let normal := n.normalize fns
  let D := normal.dot origin
  let w := n / n.dot n
  let bbox_diagonal1 := Aabb.from_points origin (origin + u + v)
  let bbox_diagonal2 := Aabb.from_points (origin + u) (origin + v)
  let aabb := (Aabb.surrounding_box bbox_diagonal1 bbox_diagonal2).padding_to_minimal
  ⟨origin, u, v, normal, area, D, w, aabb⟩

/-- Function `Quad::is_interior` (`src/shape/quad.rs` lines 66-74): returns
the acceptance flag together with the record updated with `(u,v)`. -/
def Quad.is_interior (a b : ℚ) (rec : HitRecord) : Bool × HitRecord :=
  let unit_interval := Interval.new (.fin 0) (.fin 1)
  if !(unit_interval.contains a) || !(unit_interval.contains b) then (false, rec)
  else (true, { rec with u := a, v := b })

/-- Method `Quad::intersect` (`src/shape/quad.rs` lines 78-107). -/
def Quad.intersect (q : Quad) (r : Ray) (ray_t : Interval) : Option HitRecord :=
  let denominator := q.normal.dot r.dir
  if |denominator| < f32Epsilon then none
  else
    let root := (q.D - q.normal.dot r.ori) / denominator
    if !(ray_t.contains root) then none
    else
      let p := r.at root - q.origin
      let alpha := q.w.dot (p.cross q.v)
      let beta := q.w.dot (q.u.cross p)
      let step := Quad.is_interior alpha beta HitRecord.default
      if !step.1 then none
      else
        let rec1 := { step.2 with t := root, p := r.at root }
        some (rec1.set_face_normal r q.normal)

/-- Method `Quad::sample` (`src/shape/quad.rs` lines 125-134). -/
def Quad.sample (q : Quad) (target : Vec3) (g : Rng) : (Vec3 × Vec3 × ℚ) × Rng :=
  let (alpha, g2) := g.next
  let (beta, g3) := g2.next
  let p := q.origin + alpha * q.u + beta * q.v
  let normal := q.normal
  let cos_t := |normal.dot (target - p)|
  let surface_area := q.area * cos_t
  ((p, normal, 1 / surface_area), g3)

/-- Closed sum of the shape kinds in the scene snapshots (the spec notes the
set is closed; the affine `Transformed` wrapper is unused by the claims). -/
inductive Shape where
  | sphere : Sphere → Shape
  | quad : Quad → Shape
deriving DecidableEq, Repr

/-- Trait method `Hittable::intersect` dispatched over the shape kinds. -/
def Shape.intersect (s : Shape) (fns : FloatFns) (r : Ray) (ray_t : Interval) :
    Option HitRecord :=
  match s with
  | .sphere sp => sp.intersect fns r ray_t
  | .quad q => q.intersect r ray_t

/-- Trait method `Bounded::bbox` dispatched over the shape kinds. -/
def Shape.bbox : Shape → Aabb
  | .sphere sp => sp.aabb
  | .quad q => q.aabb

/-- Trait method `Hittable::sample` dispatched over the shape kinds (the
sphere sampler ignores the shutter time as in the snapshot). -/
def Shape.sample (s : Shape) (fns : FloatFns) (target : Vec3) (g : Rng)
    (_shutter_time : ℚ) : (Vec3 × Vec3 × ℚ) × Rng :=
  match s with
  | .sphere sp => sp.sample fns target g
  | .quad q => q.sample target g

/-- Object couples a shape with a material, `src/object.rs`. -/
structure Object where
  shape : Shape
  material : Material
deriving DecidableEq, Repr

/-- Method `Object::intersect`: delegate to the shape and install the
object material into the produced record. -/
def Object.intersect (o : Object) (fns : FloatFns) (r : Ray) (ray_t : Interval) :
    Option HitRecord :=
  (o.shape.intersect fns r ray_t).map fun rec => { rec with material := some o.material }

/-- Method `Object::bbox`. -/
def Object.bbox (o : Object) : Aabb := o.shape.bbox

end PT

namespace PT

/-- IEEE `partial_cmp`: `none` when a NaN is involved. -/
def EF.pcmp (a b : EF) : Option Ordering :=
  match a, b with
  | .nan, _ => none
  | _, .nan => none
  | _, _ => if EF.lt a b then some .lt else if a = b then some .eq else some .gt

/-- Node of the bounding volume hierarchy, `src/bvh.rs`. -/
inductive BvhNode where
  | leaf : Object → Aabb → BvhNode
  | node : BvhNode → BvhNode → Aabb → BvhNode
deriving DecidableEq, Repr

namespace BvhNode

/-- Method `BvhNode::bbox`. -/
def bbox : BvhNode → Aabb
  | .leaf _ b => b
  | .node _ _ b => b

/-- Function `BvhNode::box_compare`: compare boxes by the minimum bound
along the axis, incomparable (NaN) pairs counting as equal. -/
def box_compare (a b : Aabb) (axis_index : ℕ) : Ordering :=
  (EF.pcmp (a.axis_interval axis_index).min (b.axis_interval axis_index).min).getD .eq

/-- Insert into a sorted list, keeping the new element before strictly
greater ones and after earlier equal ones (stability). -/
def insertByCmp (cmp : Object → Object → Ordering) (x : Object) :
    List Object → List Object
  | [] => [x]
  | y :: ys =>
      if cmp x y = Ordering.gt then y :: insertByCmp cmp x ys else x :: y :: ys

/-- Stable sort embedding Rust's stable `sort_by` (a stable sort is
determined uniquely by the comparator, so insertion sort is faithful). -/
def sortByCmp (cmp : Object → Object → Ordering) : List Object → List Object
  | [] => []
  | x :: xs => insertByCmp cmp x (sortByCmp cmp xs)

/-- Function `BvhNode::build_from_slice` (`src/bvh.rs` lines 55-104), with
an explicit structural fuel (`build` passes the slice length, which bounds
the recursion depth of the halving).  The `panic!` on an empty slice, and
the unreachable fuel exhaustion, are `none`. -/
def buildAux : ℕ → List Object → Option BvhNode
  | 0, _ => none
  | _ + 1, [] => none
  | fuel + 1, first :: rest =>
      let bbox := rest.foldl (fun acc o => Aabb.surrounding_box acc o.bbox) first.bbox
      let axis_index := bbox.longest_axis
      let objects :=
        sortByCmp (fun a b => box_compare a.bbox b.bbox axis_index) (first :: rest)
      match objects with
      | [] => none
      | [o] => some (.leaf o o.bbox)
      | o :: os =>
          let mid := if (o :: os).length = 2 then 1 else (o :: os).length / 2
          let left_objs := (o :: os).take mid
          let right_objs := (o :: os).drop mid
          match buildAux fuel left_objs, buildAux fuel right_objs with
          | some left_node, some right_node =>
              some (.node left_node right_node
                (Aabb.surrounding_box left_node.bbox right_node.bbox))
          | _, _ => none

/-- Function `BvhNode::build`. -/
def build (objects : List Object) : Option BvhNode :=
  buildAux objects.length objects

/-- Method `BvhNode::intersect` (`src/bvh.rs` lines 107-129): left subtree
first over the full interval, right subtree over the interval tightened to
the left hit, preferring the right result. -/
def intersect (t : BvhNode) (fns : FloatFns) (r : Ray) (ray_t : Interval) :
    Option HitRecord :=
  match t with
  | .leaf object box =>
      if !(box.intersect r ray_t) then none
      else object.intersect fns r ray_t
  | .node left right box =>
      if !(box.intersect r ray_t) then none
      else
        let hit_left := left.intersect fns r ray_t
        let t_max := (hit_left.map fun rec => EF.fin rec.t).getD ray_t.max
        let hit_right := right.intersect fns r (Interval.new ray_t.min t_max)
        hit_right.or hit_left

/-- Multiset of objects stored at the leaves. -/
def leafObjects : BvhNode → List Object
  | .leaf o _ => [o]
  | .node l r _ => l.leafObjects ++ r.leafObjects

end BvhNode

/-- Light variants, `src/light.rs`. -/
inductive Light where
  | ambient : Vec3 → Light
  | directional : Vec3 → Vec3 → Light
  | point : Vec3 → Vec3 → Light
  | object : Object → Light
deriving DecidableEq, Repr

/-- Method `Light::illuminate` (`src/light.rs` lines 24-58): returns the
intensity, the direction from the point to the light, and the distance (an
`EF`, since a directional light reports `f32::INFINITY`). -/
def Light.illuminate (l : Light) (fns : FloatFns) (pos : Vec3) (g : Rng)
    (shutter_time : ℚ) : (Vec3 × Vec3 × EF) × Rng :=
  match l with
  | .ambient color => ((color, Vec3.splat 0, .fin 0), g)
  | .directional color dir => ((color, -dir, .pinf), g)
  | .point color loc =>
      let disp := loc - pos
      let len := disp.length fns
      ((color / (len * len), disp / len, .fin len), g)
  | .object obj =>
      let (s, g2) := obj.shape.sample fns pos g shutter_time
      let p := s.1
      let n := s.2.1
      let pdf := s.2.2
      let disp := p - pos
      let len := disp.length fns
      let cosine := max (-(disp.dot n)) 0 / len
      let surface_area := cosine / (len * len)
      ((obj.material.emittance * obj.material.color * surface_area / pdf,
        disp / len, .fin len), g2)

/-- Scene aggregate, `src/scene.rs`. -/
structure Scene where
  objects : List Object
  lights : List Light
  bvh : Option BvhNode
  background : Vec3
deriving DecidableEq, Repr

namespace Scene

/-- Constructor `Scene::new` (the `Default` derive). -/
def new : Scene := ⟨[], [], none, ⟨0, 0, 0⟩⟩

/-- Builder `Scene::background` (named apart from the field). -/
def withBackground (s : Scene) (color : Vec3) : Scene := { s with background := color }

/-- Builder `Scene::with_obj`. -/
def with_obj (s : Scene) (obj : Object) : Scene :=
  { s with objects := s.objects ++ [obj] }

/-- Builder `Scene::with_obj_list`. -/
def with_obj_list (s : Scene) (obj_list : List Object) : Scene :=
  { s with objects := s.objects ++ obj_list }

/-- Builder `Scene::with_light`. -/
def with_light (s : Scene) (light : Light) : Scene :=
  { s with lights := s.lights ++ [light] }

/-- Builder `Scene::with_lights`. -/
def with_lights (s : Scene) (lights : List Light) : Scene :=
  { s with lights := s.lights ++ lights }

/-- Method `Scene::build_bvh` (`src/scene.rs` lines 64-71).  The result is
an `Option` because the callee `BvhNode::build` can panic; the emptiness
guard of `build_bvh` itself never lets that happen. -/
def build_bvh (s : Scene) : Option Scene :=
  if s.objects.isEmpty then some { s with bvh := none }
  else (BvhNode.build s.objects).map fun t => { s with bvh := some t }

end Scene

/-- Modelled from the spec: the camera collaborator is only the contract
`get_ray(u, v, rng) -> Ray` (the snapshot's `camera.rs` is an older,
rng-free revision). -/
structure Camera where
  get_ray : ℚ → ℚ → Rng → Ray × Rng

/-- Renderer, `src/renderer.rs` (the progress bar is I/O and is omitted). -/
structure Renderer where
  cam : Camera
  scene : Scene
  width : ℕ
  height : ℕ
  num_samples : ℕ
  max_bounces : ℕ

/-- Constructor `Renderer::new` with its defaults. -/
def Renderer.new (cam : Camera) (scene : Scene) : Renderer :=
  ⟨cam, scene, 800, 600, 100, 50⟩

/-- The material accessor `HitRecord::material()`; the records produced by
`Object::intersect` always carry a material, so the `unwrap` never fires
(the default is arbitrary). -/
def HitRecord.mat (rec : HitRecord) : Material :=
  rec.material.getD (Material.base 1 1)

/-- The linear-scan loop of `Renderer::intersect` (`src/renderer.rs` lines
217-226), with the running best record and `closest_so_far`. -/
def linearScan (fns : FloatFns) (r : Ray) (tmin : EF) :
    List Object → Option HitRecord → EF → Option HitRecord
  | [], rec, _ => rec
  | obj :: rest, rec, closest_so_far =>
      let search_interval := Interval.new tmin closest_so_far
      match obj.intersect fns r search_interval with
      | some obj_rec => linearScan fns r tmin rest (some obj_rec) (.fin obj_rec.t)
      | none => linearScan fns r tmin rest rec closest_so_far

/-- Method `Renderer::intersect` (`src/renderer.rs` lines 211-228): the BVH
when present, otherwise the linear scan over the scene objects. -/
def Renderer.intersect (rd : Renderer) (fns : FloatFns) (r : Ray) (ray_t : Interval) :
    Option HitRecord :=
  match rd.scene.bvh with
  | some bvh => bvh.intersect fns r ray_t
  | none => linearScan fns r ray_t.min rd.scene.objects none ray_t.max

/-- Method `Renderer::sample_lights` (`src/renderer.rs` lines 119-157). -/
def Renderer.sample_lights (rd : Renderer) (fns : FloatFns) (rec : HitRecord)
    (shutter_time : ℚ) (ray_view : Vec3) (g : Rng) : Vec3 × Rng :=
  let material := rec.mat
  let pos := rec.p
  let n := rec.normal
  let front_face := rec.front_face
  let step := fun (acc : Vec3 × Rng) (light : Light) =>
    match light with
    | .ambient color_ambient => (acc.1 + color_ambient * material.color, acc.2)
    | _ =>
        let (ill, g2) := light.illuminate fns pos acc.2 shutter_time
        let intensity := ill.1
        let ray_light := ill.2.1
        let t_micro := ill.2.2
        let close_hit :=
          (rd.intersect fns (Ray.new pos ray_light shutter_time)
            (Interval.new (.fin eps3) (EF.sub t_micro (.fin eps3)))).map
              fun rec2 => rec2.t
        if close_hit.isNone then
          let f := material.bsdf fns ray_light ray_view n front_face
          (acc.1 + f * intensity * |n.dot ray_light|, g2)
        else (acc.1, g2)
  rd.scene.lights.foldl step (Vec3.splat 0, g)

/-- Method `Renderer::trace_ray` (`src/renderer.rs` lines 87-116), by
structural recursion on the remaining bounce budget. -/
def Renderer.trace_ray (rd : Renderer) (fns : FloatFns) :
    Ray → ℕ → Rng → Vec3 × Rng
  | _, 0, g => (BLACK, g)
  | ray, num_bounces + 1, g =>
      match rd.intersect fns ray (Interval.new (.fin eps3) .pinf) with
      | none => (rd.scene.background, g)
      | some rec =>
          let m := rec.mat
          let color0 := m.emittance * m.color
          let v := -ray.dir
          let (direct, g1) := rd.sample_lights fns rec ray.t v g
          let color1 := color0 + direct
          match m.scatter fns g1 rec.normal v rec.front_face with
          | (some lp, g2) =>
              let l := lp.1
              let pdf := lp.2
              let f := m.bsdf fns l v rec.normal rec.front_face
              let scatter_ray := Ray.new rec.p l ray.t
              let (bounced, g3) := rd.trace_ray fns scatter_ray num_bounces g2
              let indirect := (1 / pdf) * f * |rec.normal.dot l| * bounced
              if indirect.is_finite then
                (color1 + indirect.vmin (Vec3.splat 100), g3)
              else (color1, g3)
          | (none, g2) => (color1, g2)

/-- Instrumented mirror of `sample_lights` counting the shadow-ray scene
queries it issues (one per non-ambient light) while advancing the random
stream exactly as `sample_lights` does. -/
def Renderer.sample_lights_queries (rd : Renderer) (fns : FloatFns) (rec : HitRecord)
    (shutter_time : ℚ) (g : Rng) : ℕ × Rng :=
  let pos := rec.p
  let step := fun (acc : ℕ × Rng) (light : Light) =>
    match light with
    | .ambient _ => acc
    | _ =>
        let (_, g2) := light.illuminate fns pos acc.2 shutter_time
        (acc.1 + 1, g2)
  rd.scene.lights.foldl step (0, g)

/-- Instrumented mirror of `trace_ray` counting every `Renderer::intersect`
scene query (primary rays and shadow rays) along the same control path. -/
def Renderer.trace_ray_queries (rd : Renderer) (fns : FloatFns) :
    Ray → ℕ → Rng → ℕ × Rng
  | _, 0, g => (0, g)
  | ray, num_bounces + 1, g =>
      match rd.intersect fns ray (Interval.new (.fin eps3) .pinf) with
      | none => (1, g)
      | some rec =>
          let v := -ray.dir
          let (shadow, g1) := rd.sample_lights_queries fns rec ray.t g
          match (rec.mat).scatter fns g1 rec.normal v rec.front_face with
          | (some lp, g2) =>
              let scatter_ray := Ray.new rec.p lp.1 ray.t
              let (deeper, g3) := rd.trace_ray_queries fns scatter_ray num_bounces g2
              (1 + shadow + deeper, g3)
          | (none, g2) => (1 + shadow, g2)

/-- The stratified sample grid of `Renderer::get_color`: one cell per pair
`(x, y)` below `iter_sqrt = (iterations as f32).sqrt() as u32`, embedded as
`Nat.sqrt` (they agree for every practical sample count). -/
def Renderer.sampleGrid (iterations : ℕ) : List (ℕ × ℕ) :=
  let iter_sqrt := Nat.sqrt iterations
  (List.range iter_sqrt).flatMap fun y => (List.range iter_sqrt).map fun x => (x, y)

/-- Method `Renderer::get_color` (`src/renderer.rs` lines 160-178): one
jittered sample per grid cell, keeping only finite samples, divided by the
requested `iterations`. -/
def Renderer.get_color (rd : Renderer) (fns : FloatFns) (col row : ℕ)
    (iterations : ℕ) (g : Rng) : Vec3 × Rng :=
  let iter_sqrt := Nat.sqrt iterations
  let step := fun (acc : Vec3 × Rng) (cell : ℕ × ℕ) =>
    let (j1, g1) := acc.2.next
    let s := ((col : ℚ) + ((cell.1 : ℚ) + j1) / (iter_sqrt : ℚ)) / (rd.width : ℚ)
    let (j2, g2) := g1.next
    let t := ((row : ℚ) + ((cell.2 : ℚ) + j2) / (iter_sqrt : ℚ)) / (rd.height : ℚ)
    let (r, g3) := rd.cam.get_ray s t g2
    let (sample_color, g4) := rd.trace_ray fns r rd.max_bounces g3
    if sample_color.is_finite then (acc.1 + sample_color, g4) else (acc.1, g4)
  let fold := (Renderer.sampleGrid iterations).foldl step (Vec3.splat 0, g)
  (fold.1 / (iterations : ℚ), fold.2)

end PT

namespace PT

/-- State-passing mirror of the `linearScan` loop, tracking the running
best record and `closest_so_far` as an explicit pair (proof device). -/
def scanState (fns : FloatFns) (r : Ray) (tmin : EF) :
    List Object → Option HitRecord × EF → Option HitRecord × EF
  | [], p => p
  | obj :: rest, p =>
      match obj.intersect fns r (Interval.new tmin p.2) with
      | some obj_rec => scanState fns r tmin rest (some obj_rec, .fin obj_rec.t)
      | none => scanState fns r tmin rest p

/-- Minimum of a list of rationals (`none` on the empty list). -/
def minList : List ℚ → Option ℚ
  | [] => none
  | a :: l => some ((minList l).elim a (min a))

/-- Interval-coherence of one object along a ray for queries sharing the
lower bound `lo`: the reported parameter lies in the query interval, and
narrowing the upper bound keeps, drops, or preserves the answer according
to its parameter.  Both intersection routines only ever narrow the upper
bound, so their agreement rests on exactly these facts. -/
def ObjCoherent (fns : FloatFns) (r : Ray) (lo : EF) (obj : Object) : Prop :=
  (∀ hi rec, obj.intersect fns r (Interval.new lo hi) = some rec →
      EF.le lo (.fin rec.t) = true ∧ EF.le (.fin rec.t) hi = true) ∧
  (∀ hi hi2, EF.le hi2 hi = true →
      obj.intersect fns r (Interval.new lo hi) = none →
      obj.intersect fns r (Interval.new lo hi2) = none) ∧
  (∀ hi hi2 rec, obj.intersect fns r (Interval.new lo hi) = some rec →
      EF.le (.fin rec.t) hi2 = true → EF.le hi2 hi = true →
      obj.intersect fns r (Interval.new lo hi2) = some rec) ∧
  (∀ hi hi2 rec, obj.intersect fns r (Interval.new lo hi) = some rec →
      EF.lt hi2 (.fin rec.t) = true → EF.le hi2 hi = true →
      obj.intersect fns r (Interval.new lo hi2) = none)

/-- Conservativeness of the cached boxes of a BVH for one ray and lower
bound: whenever some object below a node hits within a query interval, the
node's box passes the slab test on that interval. -/
def TreeConservative (fns : FloatFns) (r : Ray) (lo : EF) : BvhNode → Prop
  | .leaf obj box =>
      ∀ hi, (obj.intersect fns r (Interval.new lo hi)).isSome = true →
        box.intersect r (Interval.new lo hi) = true
  | .node left right box =>
      (∀ hi,
        (∃ obj ∈ (BvhNode.node left right box).leafObjects,
            (obj.intersect fns r (Interval.new lo hi)).isSome = true) →
        box.intersect r (Interval.new lo hi) = true) ∧
      TreeConservative fns r lo left ∧ TreeConservative fns r lo right

/-- The specular-sampling probability `f` computed at the head of
`Material::scatter` (restated for the specification of its `None` case). -/
def Material.specProbability (m : Material) : ℚ :=
  let f0 := ((m.index - 1) / (m.index + 1)) ^ 2
  let f1 := qlerp f0 (m.color.element_sum / 3) m.metallic
  if f1 > eps3 then qlerp f32c02 1 f1 else f1

/-- The squared length of the refracted tangential component tested by the
transmission branch of `Material::scatter` (restated for the specification
of its `None` case; reads the same draws the branch would read). -/
def Material.transmitSin2 (m : Material) (fns : FloatFns) (g : Rng)
    (n v : Vec3) (front_face : Bool) : ℚ :=
  let m2 := m.roughness * m.roughness
  let world_onb := ONB.new fns n
  let eta_t := if front_face then m.index else 1 / m.index
  let g1 := (g.random_bool m.specProbability).2
  let (h, _) := beckmann_sample fns m2 world_onb g1
  let cos_v := h.dot v
  let v_perp := v - h * cos_v
  let l_perp := -v_perp / eta_t
  l_perp.length_squared

/-- The per-cell radiance samples of `Renderer::get_color`, collected as a
list (specification-side view of the same fold). -/
def Renderer.pixelSamples (rd : Renderer) (fns : FloatFns) (col row : ℕ)
    (iterations : ℕ) (g : Rng) : List Vec3 × Rng :=
  let iter_sqrt := Nat.sqrt iterations
  let step := fun (acc : List Vec3 × Rng) (cell : ℕ × ℕ) =>
    let (j1, g1) := acc.2.next
    let s := ((col : ℚ) + ((cell.1 : ℚ) + j1) / (iter_sqrt : ℚ)) / (rd.width : ℚ)
    let (j2, g2) := g1.next
    let t := ((row : ℚ) + ((cell.2 : ℚ) + j2) / (iter_sqrt : ℚ)) / (rd.height : ℚ)
    let (r, g3) := rd.cam.get_ray s t g2
    let (sample_color, g4) := rd.trace_ray fns r rd.max_bounces g3
    (acc.1 ++ [sample_color], g4)
  (Renderer.sampleGrid iterations).foldl step ([], g)

/-- Red diffuse material used by the concrete test scenes. -/
def exMatRed : Material := Material.diffuse ⟨1, 0, 0⟩

/-- Concrete quad through `(0,0,1)` with unit normal `(0, 3/5, 4/5)`. -/
def exQuadY : Quad := Quad.new exactFns ⟨-1/2, 2, -1/2⟩ ⟨0, -4, 3⟩ ⟨1, 0, 0⟩

/-- Concrete quad through `(0,0,1)` with unit normal `(3/5, 0, 4/5)`. -/
def exQuadX : Quad := Quad.new exactFns ⟨2, -1/2, -1/2⟩ ⟨0, 1, 0⟩ ⟨-4, 0, 3⟩

/-- Object wrapping `exQuadY`. -/
def exObjY : Object := ⟨.quad exQuadY, exMatRed⟩

/-- Object wrapping `exQuadX`. -/
def exObjX : Object := ⟨.quad exQuadX, exMatRed⟩

/-- Test ray from `(0,0,5)` toward `-z` at shutter time 0. -/
def exRay : Ray := Ray.new ⟨0, 0, 5⟩ ⟨0, 0, -1⟩ 0

/-- The renderer's standard query interval `(1e-3, +inf)`. -/
def exInterval : Interval := Interval.new (.fin eps3) .pinf

/-- A renderer without BVH holding the two tie-breaking quads in scene
order `[exObjY, exObjX]` (the camera is irrelevant to intersection). -/
def exRenderer : Renderer :=
  Renderer.new ⟨fun _ _ g => (exRay, g)⟩
    ((Scene.new.with_obj exObjY).with_obj exObjX)

/-- Concrete unit sphere at the origin. -/
def exUnitSphere : Sphere := Sphere.new ⟨0, 0, 0⟩ none 1

/-- Concrete sphere of radius 2 at the origin (face-normal witness). -/
def exSphereR2 : Sphere := Sphere.new ⟨0, 0, 0⟩ none 2

/-- Concrete object for the staleness counterexample (unit sphere). -/
def exObjS1 : Object := ⟨.sphere exUnitSphere, exMatRed⟩

/-- A second concrete object (unit sphere shifted along x). -/
def exObjS2 : Object := ⟨.sphere (Sphere.new ⟨3, 0, 0⟩ none 1), exMatRed⟩

/-- The all-zero random stream. -/
def rngZero : Rng := ⟨fun _ => 0, 0⟩

/-- The constant one-half random stream. -/
def rngHalf : Rng := ⟨fun _ => 1/2, 0⟩

/-- Renderer over the empty scene with a white background (its camera
always returns `exRay`). -/
def rdEmpty : Renderer :=
  Renderer.new ⟨fun _ _ g => (exRay, g)⟩ (Scene.new.withBackground ⟨1, 1, 1⟩)

/-- Transparent material with refraction index `1/3`, giving total internal
reflection for the transmission draw of `rngHalf`. -/
def exMatTIR : Material := ⟨⟨1, 1, 1⟩, 1, 0, 1/3, 0, true⟩

/-- Renderer holding one unit sphere with the `exMatTIR` material and no
lights. -/
def rdTIR : Renderer :=
  Renderer.new ⟨fun _ _ g => (exRay, g)⟩
    (Scene.new.with_obj ⟨.sphere exUnitSphere, exMatTIR⟩)

end PT

namespace PT

/-- The per-cell fold step of `Renderer::get_color`, named for the proofs
(definitionally equal to the closure inside `get_color`). -/
def colorStep (rd : Renderer) (fns : FloatFns) (col row iterations : ℕ) :
    (Vec3 × Rng) → (ℕ × ℕ) → (Vec3 × Rng) := fun acc cell =>
  let iter_sqrt := Nat.sqrt iterations
  let (j1, g1) := acc.2.next
  let s := ((col : ℚ) + ((cell.1 : ℚ) + j1) / (iter_sqrt : ℚ)) / (rd.width : ℚ)
  let (j2, g2) := g1.next
  let t := ((row : ℚ) + ((cell.2 : ℚ) + j2) / (iter_sqrt : ℚ)) / (rd.height : ℚ)
  let (r, g3) := rd.cam.get_ray s t g2
  let (sample_color, g4) := rd.trace_ray fns r rd.max_bounces g3
  if sample_color.is_finite then (acc.1 + sample_color, g4) else (acc.1, g4)

/-- The per-cell fold step of `Renderer.pixelSamples`, named for the proofs
(definitionally equal to the closure inside `pixelSamples`). -/
def samplesStep (rd : Renderer) (fns : FloatFns) (col row iterations : ℕ) :
    (List Vec3 × Rng) → (ℕ × ℕ) → (List Vec3 × Rng) := fun acc cell =>
  let iter_sqrt := Nat.sqrt iterations
  let (j1, g1) := acc.2.next
  let s := ((col : ℚ) + ((cell.1 : ℚ) + j1) / (iter_sqrt : ℚ)) / (rd.width : ℚ)
  let (j2, g2) := g1.next
  let t := ((row : ℚ) + ((cell.2 : ℚ) + j2) / (iter_sqrt : ℚ)) / (rd.height : ℚ)
  let (r, g3) := rd.cam.get_ray s t g2
  let (sample_color, g4) := rd.trace_ray fns r rd.max_bounces g3
  (acc.1 ++ [sample_color], g4)


/-- Quad used by the C1 witness scene: its bounding box contains the origin
of `exRay`, so the slab test passes whenever the quad's hit does. -/
def exQuadW : Quad := Quad.new exactFns ⟨-1/2, 4, -2⟩ ⟨0, -12, 9⟩ ⟨1, 0, 0⟩

/-- Object wrapping `exQuadW`. -/
def exObjW : Object := ⟨.quad exQuadW, exMatRed⟩

/-- The hit record `exObjW` produces on `exRay` (t = 4 at `(0,0,1)`). -/
def exRecW : HitRecord := ⟨⟨0, 0, 1⟩, 4, ⟨0, 3/5, 4/5⟩, true, some exMatRed, 1/3, 1/2⟩

/-- A renderer without BVH holding only `exObjW` (C1 witness). -/
def exRendererW : Renderer :=
  Renderer.new ⟨fun _ _ g => (exRay, g)⟩ (Scene.new.with_obj exObjW)


/-- The oriented slab parameters of one axis of `Aabb::intersect` (proof
device naming the pair computed inside `slabAxis`). -/
def slabP (b : Aabb) (r : Ray) (i : ℕ) : EF × EF :=
  let invD := EF.div (.fin 1) (.fin (r.dirAxis i))
  let t0 := EF.mul (EF.sub (b.axis_interval i).min (.fin (r.oriAxis i))) invD
  let t1 := EF.mul (EF.sub (b.axis_interval i).max (.fin (r.oriAxis i))) invD
  if EF.lt invD (.fin 0) then (t1, t0) else (t0, t1)

/- ===== Theorems: general lemmas and claim verdicts from here on. ===== -/

theorem set_face_normal_spec (rec : HitRecord) (r : Ray) (outward : Vec3) :
    ((rec.set_face_normal r outward).front_face = true ↔ r.dir.dot outward < 0) ∧
    (rec.set_face_normal r outward).normal =
      (if r.dir.dot outward < 0 then outward else -outward) ∧
    ((rec.set_face_normal r outward).front_face = true →
      r.dir.dot (rec.set_face_normal r outward).normal < 0) ∧
    r.dir.dot (rec.set_face_normal r outward).normal ≤ 0 := by
  have hneg : ∀ w : Vec3, r.dir.dot (-w) = -(r.dir.dot w) := by
    intro w
    show r.dir.dot (Vec3.neg w) = -(r.dir.dot w)
    unfold Vec3.dot Vec3.neg
    ring
  unfold HitRecord.set_face_normal
  by_cases h : r.dir.dot outward < 0
  · exact ⟨by simp [h], by simp [h], fun _ => by simp [h], by simp [h]; exact le_of_lt h⟩
  · refine ⟨by simp [h], by simp [h], fun hh => by simp [h] at hh, ?_⟩
    have hd : decide (r.dir.dot outward < 0) = false := decide_eq_false h
    simp only [hd, Bool.false_eq_true, if_false]
    rw [if_neg h, hneg]
    linarith [not_lt.mp h]

theorem quad_interior_eq_iff (a b : ℚ) (rec : HitRecord) :
    (Quad.is_interior a b rec).1 = true ↔ (0 ≤ a ∧ a ≤ 1 ∧ 0 ≤ b ∧ b ≤ 1) := by
  simp only [Quad.is_interior, Interval.contains, Interval.new, EF.le]
  by_cases h1 : 0 ≤ a <;> by_cases h2 : a ≤ 1 <;>
    by_cases h3 : 0 ≤ b <;> by_cases h4 : b ≤ 1 <;>
    simp [h1, h2, h3, h4]

theorem quad_interior_stores_uv (a b : ℚ) (rec : HitRecord)
    (h : (Quad.is_interior a b rec).1 = true) :
    (Quad.is_interior a b rec).2 = { rec with u := a, v := b } := by
  simp only [Quad.is_interior] at h ⊢
  split_ifs at h ⊢ <;> simp_all

end PT

namespace PT

theorem set_face_uv_update_spec (rec0 : HitRecord) (r : Ray) (n : Vec3) (a b : ℚ) :
    (({ rec0.set_face_normal r n with u := a, v := b }).front_face = true →
      r.dir.dot ({ rec0.set_face_normal r n with u := a, v := b }).normal < 0) ∧
    r.dir.dot ({ rec0.set_face_normal r n with u := a, v := b }).normal ≤ 0 := by
  have hc := set_face_normal_spec rec0 r n
  exact ⟨fun hf => hc.2.2.1 hf, hc.2.2.2⟩

theorem sphere_hit_face (s : Sphere) (fns : FloatFns) (r : Ray) (I : Interval)
    (rec : HitRecord) (h : s.intersect fns r I = some rec) :
    (rec.front_face = true → r.dir.dot rec.normal < 0) ∧ r.dir.dot rec.normal ≤ 0 := by
  simp only [Sphere.intersect] at h
  split at h
  · exact Option.noConfusion h
  · split at h
    · exact Option.noConfusion h
    · injection h with h
      subst h
      exact set_face_uv_update_spec _ r _ _ _

theorem quad_hit_face (q : Quad) (r : Ray) (I : Interval)
    (rec : HitRecord) (h : q.intersect r I = some rec) :
    (rec.front_face = true → r.dir.dot rec.normal < 0) ∧ r.dir.dot rec.normal ≤ 0 := by
  simp only [Quad.intersect] at h
  split at h
  · exact Option.noConfusion h
  · split at h
    · exact Option.noConfusion h
    · split at h
      · exact Option.noConfusion h
      · injection h with h
        subst h
        have hc := set_face_normal_spec
          { (Quad.is_interior
              (q.w.dot ((r.at ((q.D - q.normal.dot r.ori) / q.normal.dot r.dir) - q.origin).cross q.v))
              (q.w.dot (q.u.cross (r.at ((q.D - q.normal.dot r.ori) / q.normal.dot r.dir) - q.origin)))
              HitRecord.default).2 with
            t := (q.D - q.normal.dot r.ori) / q.normal.dot r.dir
            p := r.at ((q.D - q.normal.dot r.ori) / q.normal.dot r.dir) } r q.normal
        exact ⟨fun hf => hc.2.2.1 hf, hc.2.2.2⟩

/-- C5: `set_face_normal` records `front_face = (dir · outward < 0)` and
stores `outward` when front facing and `-outward` otherwise; consequently
for every hit returned by the sphere and quad primitives, `front_face =
true` implies `dir · normal < 0`, and the recorded normal never points with
the incoming ray direction (`dir · normal ≤ 0`). -/
theorem C5_face_normal_convention :
    (∀ (rec : HitRecord) (r : Ray) (outward : Vec3),
      ((rec.set_face_normal r outward).front_face = true ↔ r.dir.dot outward < 0) ∧
      (rec.set_face_normal r outward).normal =
        (if r.dir.dot outward < 0 then outward else -outward) ∧
      ((rec.set_face_normal r outward).front_face = true →
        r.dir.dot (rec.set_face_normal r outward).normal < 0) ∧
      r.dir.dot (rec.set_face_normal r outward).normal ≤ 0) ∧
    (∀ (s : Sphere) (fns : FloatFns) (r : Ray) (I : Interval) (rec : HitRecord),
      s.intersect fns r I = some rec →
      (rec.front_face = true → r.dir.dot rec.normal < 0) ∧ r.dir.dot rec.normal ≤ 0) ∧
    (∀ (q : Quad) (r : Ray) (I : Interval) (rec : HitRecord),
      q.intersect r I = some rec →
      (rec.front_face = true → r.dir.dot rec.normal < 0) ∧ r.dir.dot rec.normal ≤ 0) :=
  ⟨set_face_normal_spec, sphere_hit_face, quad_hit_face⟩

/-- Witness for C5 at the radius-2 sphere hit of `exRay`. -/
theorem C5_face_normal_witness :
    ((⟨⟨0, 0, 2⟩, 3, ⟨0, 0, 1⟩, true, none, 1/2, 0⟩ : HitRecord).front_face = true →
      exRay.dir.dot (⟨⟨0, 0, 2⟩, 3, ⟨0, 0, 1⟩, true, none, 1/2, 0⟩ : HitRecord).normal < 0) ∧
    exRay.dir.dot (⟨⟨0, 0, 2⟩, 3, ⟨0, 0, 1⟩, true, none, 1/2, 0⟩ : HitRecord).normal ≤ 0 :=
  C5_face_normal_convention.2.1 exSphereR2 exactFns exRay (Interval.new (.fin 0) .pinf) _
    (by with_unfolding_all rfl)

/-- C8: the unit sphere at the origin intersected by the ray from `(0,0,5)`
toward `-z` over `(0, +inf)` reports `t = 4`, `p = (0,0,1)`,
`normal = (0,0,1)` and `front_face = true`. -/
theorem C8_sphere_analytic_case :
    (exUnitSphere.intersect exactFns exRay (Interval.new (.fin 0) .pinf)).map
      (fun rec => (rec.t, rec.p, rec.normal, rec.front_face)) =
    some (4, ⟨0, 0, 1⟩, ⟨0, 0, 1⟩, true) := by
  with_unfolding_all rfl

/-- C9: `Quad::is_interior` accepts exactly the closed unit square of local
coordinates, stores them as `(u, v)` on acceptance, accepts `(0,0)`, `(1,1)`
and `(0.5,0.5)`, and rejects `(1.01,0.5)` and `(-0.01,0.5)`. -/
theorem C9_quad_interior_boundary :
    (∀ (a b : ℚ) (rec : HitRecord),
      ((Quad.is_interior a b rec).1 = true ↔ (0 ≤ a ∧ a ≤ 1 ∧ 0 ≤ b ∧ b ≤ 1))) ∧
    (∀ (a b : ℚ) (rec : HitRecord), (Quad.is_interior a b rec).1 = true →
      (Quad.is_interior a b rec).2 = { rec with u := a, v := b }) ∧
    (Quad.is_interior 0 0 HitRecord.default).1 = true ∧
    (Quad.is_interior 1 1 HitRecord.default).1 = true ∧
    (Quad.is_interior (1/2) (1/2) HitRecord.default).1 = true ∧
    (Quad.is_interior (101/100) (1/2) HitRecord.default).1 = false ∧
    (Quad.is_interior (-1/100) (1/2) HitRecord.default).1 = false :=
  ⟨quad_interior_eq_iff, quad_interior_stores_uv,
    by with_unfolding_all rfl, by with_unfolding_all rfl, by with_unfolding_all rfl,
    by with_unfolding_all rfl, by with_unfolding_all rfl⟩

/-- Witness for C9 at the accepted interior point `(1/2, 1/2)`. -/
theorem C9_quad_interior_witness :
    (Quad.is_interior (1/2) (1/2) HitRecord.default).2 =
      { HitRecord.default with u := 1/2, v := 1/2 } :=
  C9_quad_interior_boundary.2.1 (1/2) (1/2) HitRecord.default (by with_unfolding_all rfl)

/-- C2 counterexample: `build_bvh` on the empty scene does NOT abort: it
returns the scene unchanged (with `bvh = None`), so the failure claimed by
the spec does not happen at construction time. -/
theorem C2_counterexample_empty_build_returns :
    Scene.new.objects = [] ∧ Scene.build_bvh Scene.new = some Scene.new :=
  ⟨rfl, by with_unfolding_all rfl⟩

/-- C2 amended: on an empty object list `Scene::build_bvh` returns the
scene normally with the BVH cleared; only the inner `BvhNode::build` would
panic on an empty list, and the guard keeps it from being called. -/
theorem C2_amended_empty_build (s : Scene) (h : s.objects = []) :
    s.build_bvh = some { s with bvh := none } ∧ BvhNode.build s.objects = none := by
  constructor
  · simp [Scene.build_bvh, h]
  · simp [h, BvhNode.build, BvhNode.buildAux]

/-- Witness for the amended C2 at the empty scene. -/
theorem C2_amended_witness :
    Scene.new.build_bvh = some { Scene.new with bvh := none } ∧
    BvhNode.build Scene.new.objects = none :=
  C2_amended_empty_build Scene.new rfl

end PT

namespace PT

theorem insertByCmp_perm (cmp : Object → Object → Ordering) (x : Object) :
    ∀ l : List Object, (BvhNode.insertByCmp cmp x l).Perm (x :: l)
  | [] => List.Perm.refl _
  | y :: ys => by
      unfold BvhNode.insertByCmp
      split
      · exact ((insertByCmp_perm cmp x ys).cons y).trans (List.Perm.swap x y ys)
      · exact List.Perm.refl _

theorem sortByCmp_perm (cmp : Object → Object → Ordering) :
    ∀ l : List Object, (BvhNode.sortByCmp cmp l).Perm l
  | [] => List.Perm.refl _
  | x :: xs => by
      unfold BvhNode.sortByCmp
      exact (insertByCmp_perm cmp x _).trans ((sortByCmp_perm cmp xs).cons x)

theorem buildAux_leaf_perm :
    ∀ (fuel : ℕ) (objs : List Object) (t : BvhNode),
      BvhNode.buildAux fuel objs = some t → t.leafObjects.Perm objs := by
  intro fuel
  induction fuel with
  | zero => intro objs t h; simp [BvhNode.buildAux] at h
  | succ fuel ih =>
    intro objs t h
    match objs with
    | [] => simp [BvhNode.buildAux] at h
    | first :: rest =>
      simp only [BvhNode.buildAux] at h
      have hp := sortByCmp_perm
        (fun a b => BvhNode.box_compare a.bbox b.bbox
          ((rest.foldl (fun acc o => Aabb.surrounding_box acc o.bbox) first.bbox).longest_axis))
        (first :: rest)
      split at h
      · exact Option.noConfusion h
      · next o heq =>
        injection h with h
        subst h
        simp only [BvhNode.leafObjects]
        rw [heq] at hp
        exact hp
      · next o os _hne heq =>
        split at h
        · next ln rn hln hrn =>
          injection h with h
          subst h
          simp only [BvhNode.leafObjects]
          rw [heq] at hp
          have h1 := ih _ _ hln
          have h2 := ih _ _ hrn
          have hsplit :
              (o :: os).take (if (o :: os).length = 2 then 1 else (o :: os).length / 2) ++
              (o :: os).drop (if (o :: os).length = 2 then 1 else (o :: os).length / 2) =
              o :: os := List.take_append_drop _ _
          exact (hsplit ▸ (h1.append h2)).trans hp
        · exact Option.noConfusion h

/-- C3 counterexample: after `build_bvh`, a further `with_obj` leaves the
stale one-leaf BVH cached while the object list has grown to two, so the
cached BVH is built from a strict subset of the current objects. -/
theorem C3_counterexample_stale_bvh :
    ((Scene.new.with_obj exObjS1).build_bvh).map (fun s =>
      (((s.with_obj exObjS2).bvh).map BvhNode.leafObjects, (s.with_obj exObjS2).objects)) =
      some (some [exObjS1], [exObjS1, exObjS2]) ∧
    ¬ ([exObjS1] : List Object).Perm [exObjS1, exObjS2] := by
  constructor
  · with_unfolding_all rfl
  · intro h
    simpa using h.length_eq

/-- C3 amended: the invariant holds exactly at `build_bvh` boundaries: a
successful `build_bvh` leaves the object list unchanged and any cached BVH
it produced holds precisely the current objects (as a multiset); mutating
builders do not invalidate the cache, so the caller must rebuild (as the
code comment on `build_bvh` itself demands). -/
theorem C3_amended_build_establishes (s s2 : Scene) (h : s.build_bvh = some s2) :
    s2.objects = s.objects ∧
    ∀ b, s2.bvh = some b → b.leafObjects.Perm s2.objects := by
  unfold Scene.build_bvh at h
  split at h
  · injection h with h
    subst h
    exact ⟨rfl, fun b hb => Option.noConfusion hb⟩
  · rcases hb : BvhNode.build s.objects with _ | t
    · rw [hb] at h; exact Option.noConfusion h
    · rw [hb] at h
      injection h with h
      subst h
      refine ⟨rfl, fun b hbe => ?_⟩
      injection hbe with hbe
      subst hbe
      exact buildAux_leaf_perm _ _ _ hb

/-- Witness for the amended C3 at the one-sphere scene. -/
theorem C3_amended_witness :
    (⟨[exObjS1], [], some (.leaf exObjS1 exObjS1.bbox), ⟨0,0,0⟩⟩ : Scene).objects =
      (Scene.new.with_obj exObjS1).objects ∧
    ∀ b, (⟨[exObjS1], [], some (.leaf exObjS1 exObjS1.bbox), ⟨0,0,0⟩⟩ : Scene).bvh = some b →
      b.leafObjects.Perm
        (⟨[exObjS1], [], some (.leaf exObjS1 exObjS1.bbox), ⟨0,0,0⟩⟩ : Scene).objects :=
  C3_amended_build_establishes (Scene.new.with_obj exObjS1) _ (by with_unfolding_all rfl)

theorem foldl_count_le {α β : Type} (f : (ℕ × β) → α → (ℕ × β))
    (hf : ∀ acc a, (f acc a).1 ≤ acc.1 + 1) :
    ∀ (l : List α) (acc : ℕ × β), (List.foldl f acc l).1 ≤ acc.1 + l.length := by
  intro l
  induction l with
  | nil => intro acc; simp
  | cons a as ih =>
    intro acc
    calc (List.foldl f (f acc a) as).1 ≤ (f acc a).1 + as.length := ih _
      _ ≤ acc.1 + 1 + as.length := by have := hf acc a; omega
      _ = acc.1 + (a :: as).length := by simp; omega

theorem sample_lights_queries_le (rd : Renderer) (fns : FloatFns) (rec : HitRecord)
    (st : ℚ) (g : Rng) :
    (rd.sample_lights_queries fns rec st g).1 ≤ rd.scene.lights.length := by
  simp only [Renderer.sample_lights_queries]
  refine le_trans (foldl_count_le _ ?_ rd.scene.lights (0, g)) (by simp)
  intro acc light
  cases light <;> simp

theorem trace_ray_queries_bound (rd : Renderer) (fns : FloatFns) :
    ∀ (n : ℕ) (ray : Ray) (g : Rng),
      (rd.trace_ray_queries fns ray n g).1 ≤ n * (1 + rd.scene.lights.length) := by
  intro n
  induction n with
  | zero => intro ray g; simp [Renderer.trace_ray_queries]
  | succ n ih =>
    intro ray g
    rw [Renderer.trace_ray_queries]
    rcases hI : rd.intersect fns ray (Interval.new (.fin eps3) .pinf) with _ | rec
    · simp only [hI]
      calc 1 ≤ 1 + rd.scene.lights.length := by omega
        _ ≤ (n + 1) * (1 + rd.scene.lights.length) := Nat.le_mul_of_pos_left _ (by omega)
    · simp only [hI]
      have hs := sample_lights_queries_le rd fns rec ray.t g
      rcases hS : (rec.mat).scatter fns (rd.sample_lights_queries fns rec ray.t g).2
          rec.normal (-ray.dir) rec.front_face with ⟨o, g2⟩
      cases o with
      | some lp =>
        simp only [hS]
        have hd := ih (Ray.new rec.p lp.1 ray.t) g2
        have hmul : (n + 1) * (1 + rd.scene.lights.length)
            = n * (1 + rd.scene.lights.length) + (1 + rd.scene.lights.length) := by ring
        omega
      | none =>
        simp only [hS]
        have hmul : (n + 1) * (1 + rd.scene.lights.length)
            = n * (1 + rd.scene.lights.length) + (1 + rd.scene.lights.length) := by ring
        omega

/-- C7: the path tracer terminates: at bounce budget 0 it returns black
immediately for every renderer (so the result never depends on the scene
and no scene query is issued), and the total number of scene intersection
queries of a trace with budget `n` is bounded by `n * (1 + #lights)`, the
recursion passing budget `n - 1` to each bounce. -/
theorem C7_trace_ray_depth_limited :
    (∀ (rd : Renderer) (fns : FloatFns) (ray : Ray) (g : Rng),
      rd.trace_ray fns ray 0 g = (BLACK, g)) ∧
    (∀ (rd : Renderer) (fns : FloatFns) (ray : Ray) (g : Rng),
      rd.trace_ray_queries fns ray 0 g = (0, g)) ∧
    (∀ (rd : Renderer) (fns : FloatFns) (n : ℕ) (ray : Ray) (g : Rng),
      (rd.trace_ray_queries fns ray n g).1 ≤ n * (1 + rd.scene.lights.length)) :=
  ⟨fun _ _ _ _ => rfl, fun _ _ _ _ => rfl,
    fun rd fns n ray g => trace_ray_queries_bound rd fns n ray g⟩

end PT

namespace PT

theorem get_color_eq_fold (rd : Renderer) (fns : FloatFns) (col row iterations : ℕ)
    (g : Rng) :
    rd.get_color fns col row iterations g =
      (((Renderer.sampleGrid iterations).foldl (colorStep rd fns col row iterations)
          (Vec3.splat 0, g)).1 / (iterations : ℚ),
       ((Renderer.sampleGrid iterations).foldl (colorStep rd fns col row iterations)
          (Vec3.splat 0, g)).2) := rfl

theorem pixelSamples_eq_fold (rd : Renderer) (fns : FloatFns) (col row iterations : ℕ)
    (g : Rng) :
    rd.pixelSamples fns col row iterations g =
      (Renderer.sampleGrid iterations).foldl (samplesStep rd fns col row iterations)
        ([], g) := rfl

theorem vec3_zero_add (a : Vec3) : Vec3.add ⟨0,0,0⟩ a = a := by
  unfold Vec3.add; cases a; norm_num

theorem vec3_add_assoc (a b c : Vec3) : Vec3.add (Vec3.add a b) c = Vec3.add a (Vec3.add b c) := by
  unfold Vec3.add; cases a; cases b; cases c; simp; ring_nf; norm_num [add_assoc]

theorem vec3_foldl_add_shift :
    ∀ (L : List Vec3) (a : Vec3), L.foldl Vec3.add a = Vec3.add a (L.foldl Vec3.add ⟨0,0,0⟩) := by
  intro L
  induction L with
  | nil => intro a; simp [List.foldl]; unfold Vec3.add; cases a; norm_num
  | cons x xs ih =>
    intro a
    simp only [List.foldl]
    rw [ih (Vec3.add a x), ih (Vec3.add ⟨0,0,0⟩ x), vec3_zero_add, vec3_add_assoc]

theorem samplesStep_acc (rd : Renderer) (fns : FloatFns) (col row iterations : ℕ) :
    ∀ (cells : List (ℕ × ℕ)) (accL : List Vec3) (g : Rng),
      cells.foldl (samplesStep rd fns col row iterations) (accL, g) =
        (accL ++ (cells.foldl (samplesStep rd fns col row iterations) ([], g)).1,
         (cells.foldl (samplesStep rd fns col row iterations) ([], g)).2) := by
  intro cells
  induction cells with
  | nil => intro accL g; simp
  | cons c cs ih =>
    intro accL g
    simp only [List.foldl]
    rw [show samplesStep rd fns col row iterations (accL, g) c =
          (accL ++ (samplesStep rd fns col row iterations ([], g) c).1,
           (samplesStep rd fns col row iterations ([], g) c).2) from rfl]
    rw [ih (accL ++ (samplesStep rd fns col row iterations ([], g) c).1) _]
    rw [ih (samplesStep rd fns col row iterations ([], g) c).1 _]
    simp

theorem color_vs_samples (rd : Renderer) (fns : FloatFns) (col row iterations : ℕ) :
    ∀ (cells : List (ℕ × ℕ)) (acc : Vec3) (g : Rng),
      (cells.foldl (colorStep rd fns col row iterations) (acc, g)).1 =
        Vec3.add acc
          ((cells.foldl (samplesStep rd fns col row iterations) ([], g)).1.foldl
            Vec3.add ⟨0,0,0⟩) ∧
      (cells.foldl (colorStep rd fns col row iterations) (acc, g)).2 =
        (cells.foldl (samplesStep rd fns col row iterations) ([], g)).2 := by
  intro cells
  induction cells with
  | nil =>
    intro acc g
    constructor
    · simp [List.foldl]; unfold Vec3.add; cases acc; norm_num
    · simp
  | cons c cs ih =>
    intro acc g
    obtain ⟨x, g4, hS, hC⟩ :
        ∃ x g4, samplesStep rd fns col row iterations ([], g) c = ([x], g4) ∧
          colorStep rd fns col row iterations (acc, g) c = (Vec3.add acc x, g4) :=
      ⟨_, _, rfl, rfl⟩
    simp only [List.foldl]
    rw [hC, hS]
    rw [samplesStep_acc rd fns col row iterations cs [x] g4]
    obtain ⟨ih1, ih2⟩ := ih (Vec3.add acc x) g4
    refine ⟨?_, by simpa using ih2⟩
    rw [ih1]
    simp only [List.cons_append, List.nil_append, List.foldl]
    rw [vec3_foldl_add_shift _ (Vec3.add ⟨0,0,0⟩ x), vec3_zero_add, vec3_add_assoc]
    simp

theorem sampleGrid_length (iterations : ℕ) :
    (Renderer.sampleGrid iterations).length = Nat.sqrt iterations * Nat.sqrt iterations := by
  simp only [Renderer.sampleGrid, List.length_flatMap]
  have hfun : (List.length ∘ fun y : ℕ => List.map (fun x : ℕ => (x, y))
      (List.range iterations.sqrt)) = fun _ : ℕ => iterations.sqrt :=
    funext fun y => by simp
  rw [hfun, List.map_const']
  simp [List.sum_replicate, smul_eq_mul]

theorem samples_length (rd : Renderer) (fns : FloatFns) (col row iterations : ℕ) :
    ∀ (cells : List (ℕ × ℕ)) (accL : List Vec3) (g : Rng),
      (cells.foldl (samplesStep rd fns col row iterations) (accL, g)).1.length =
        accL.length + cells.length := by
  intro cells
  induction cells with
  | nil => intro accL g; simp
  | cons c cs ih =>
    intro accL g
    obtain ⟨x, g4, hS⟩ :
        ∃ x g4, samplesStep rd fns col row iterations (accL, g) c = (accL ++ [x], g4) :=
      ⟨_, _, rfl⟩
    simp only [List.foldl, hS]
    rw [ih (accL ++ [x]) g4]
    simp
    omega

/-- C4 counterexample: at `iterations = 10` on the empty scene with white
background, only `9 = 3*3` samples are drawn (not 10), every sample is the
finite color `(1,1,1)` whose accepted-sample average is `(1,1,1)`, yet
`get_color` returns `(9/10, 9/10, 9/10)` because it divides by the
requested 10. -/
theorem C4_counterexample_sample_count :
    (Renderer.sampleGrid 10).length = 9 ∧
    (Renderer.sampleGrid 10).length ≠ 10 ∧
    (rdEmpty.pixelSamples exactFns 0 0 10 rngZero).1 = List.replicate 9 ⟨1,1,1⟩ ∧
    (rdEmpty.get_color exactFns 0 0 10 rngZero).1 = ⟨9/10, 9/10, 9/10⟩ ∧
    ((List.replicate 9 (⟨1,1,1⟩ : Vec3)).filter Vec3.is_finite).foldl Vec3.add (Vec3.splat 0) /
        (((List.replicate 9 (⟨1,1,1⟩ : Vec3)).filter Vec3.is_finite).length : ℚ) = ⟨1, 1, 1⟩ ∧
    (⟨9/10, 9/10, 9/10⟩ : Vec3) ≠ ⟨1, 1, 1⟩ := by
  refine ⟨by with_unfolding_all rfl, by with_unfolding_all decide, by with_unfolding_all rfl,
    by with_unfolding_all rfl, by with_unfolding_all rfl, by with_unfolding_all decide⟩

/-- C4 amended: `get_color` draws `(Nat.sqrt iterations)^2` jittered
samples (one per stratified cell, which equals `iterations` only for a
perfect square), sums the finite ones, and divides by the requested
`iterations` count -- the average of the accepted samples only when
`iterations` is a perfect square and no sample was discarded. -/
theorem C4_amended_stratified_sum (rd : Renderer) (fns : FloatFns)
    (col row iterations : ℕ) (g : Rng) :
    (Renderer.sampleGrid iterations).length = Nat.sqrt iterations * Nat.sqrt iterations ∧
    (rd.pixelSamples fns col row iterations g).1.length =
      Nat.sqrt iterations * Nat.sqrt iterations ∧
    (rd.get_color fns col row iterations g).1 =
      ((rd.pixelSamples fns col row iterations g).1.filter Vec3.is_finite).foldl
        Vec3.add (Vec3.splat 0) / (iterations : ℚ) := by
  refine ⟨sampleGrid_length iterations, ?_, ?_⟩
  · rw [pixelSamples_eq_fold, samples_length rd fns col row iterations _ [] g]
    simpa using sampleGrid_length iterations
  · rw [get_color_eq_fold, pixelSamples_eq_fold]
    have hfil : ∀ l : List Vec3, l.filter Vec3.is_finite = l := by
      intro l
      apply List.filter_eq_self.mpr
      intro a _
      rfl
    rw [hfil]
    have h := (color_vs_samples rd fns col row iterations
      (Renderer.sampleGrid iterations) (Vec3.splat 0) g).1
    simp only [h]
    have hz : ∀ w : Vec3, Vec3.add (Vec3.splat 0) w = w := by
      intro w; exact vec3_zero_add w
    rw [hz]
    rfl

end PT

namespace PT

theorem EF.fmax_nan_right : ∀ a : EF, EF.fmax a .nan = a := by
  intro a; cases a <;> rfl

theorem EF.fmin_nan_right : ∀ a : EF, EF.fmin a .nan = a := by
  intro a; cases a <;> rfl

theorem EF.fmin_pinf_right : ∀ a : EF, a ≠ .nan → EF.fmin a .pinf = a := by
  intro a h; cases a <;> simp_all [EF.fmin, EF.le]

theorem EF.fmax_ninf_right : ∀ a : EF, a ≠ .nan → EF.fmax a .ninf = a := by
  intro a h; cases a <;> simp_all [EF.fmax, EF.le]

theorem slab_nan_iff (bq ori dir : ℚ) :
    EF.mul (EF.sub (.fin bq) (.fin ori)) (EF.div (.fin 1) (.fin dir)) = .nan ↔
      (dir = 0 ∧ bq = ori) := by
  by_cases hd : dir = 0
  · by_cases he : bq - ori = 0
    · have hbo : bq = ori := sub_eq_zero.mp he
      simp [EF.sub, EF.div, EF.mul, hd, he, hbo]
    · have hbo : bq ≠ ori := fun hc => he (by rw [hc]; ring)
      simp only [EF.sub, EF.div, EF.mul, hd, if_true, eq_self_iff_true]
      norm_num
      split_ifs <;> simp_all
  · simp [EF.sub, EF.div, EF.mul, hd]

theorem slab_axis_degenerate (b : Aabb) (r : Ray) (i : ℕ) (acc : EF × EF)
    (bmin bmax : ℚ) (hb : b.axis_interval i = ⟨.fin bmin, .fin bmax⟩)
    (hd : r.dirAxis i = 0) (hbb : bmin ≤ bmax)
    (hpos : r.oriAxis i = bmin ∨ r.oriAxis i = bmax ∨
      (bmin < r.oriAxis i ∧ r.oriAxis i < bmax))
    (h1 : acc.1 ≠ .nan) (h2 : acc.2 ≠ .nan) :
    b.slabAxis r i acc = if EF.le acc.2 acc.1 then none else some acc := by
  have hinv : EF.div (.fin 1) (.fin (r.dirAxis i)) = .pinf := by
    simp [EF.div, hd]
  have hswap : EF.lt EF.pinf (.fin 0) = false := rfl
  simp only [Aabb.slabAxis, hb, hinv, hswap, Bool.false_eq_true, if_false, EF.sub]
  rcases hpos with h | h | ⟨hl, hr⟩
  · have ht0 : EF.mul (.fin (bmin - r.oriAxis i)) .pinf = .nan := by
      simp [EF.mul, h]
    rcases eq_or_lt_of_le hbb with heq | hlt
    · have ht1 : EF.mul (.fin (bmax - r.oriAxis i)) .pinf = .nan := by
        simp [EF.mul, h, heq]
      simp only [ht0, ht1, EF.fmax_nan_right, EF.fmin_nan_right]
    · have ht1 : EF.mul (.fin (bmax - r.oriAxis i)) .pinf = .pinf := by
        have hne : bmax - r.oriAxis i ≠ 0 := by rw [h]; intro hc; linarith [sub_eq_zero.mp hc]
        have hgt : 0 < bmax - r.oriAxis i := by rw [h]; linarith
        simp [EF.mul, hne, hgt]
      simp only [ht0, ht1, EF.fmax_nan_right, EF.fmin_pinf_right acc.2 h2]
  · have ht1 : EF.mul (.fin (bmax - r.oriAxis i)) .pinf = .nan := by
      simp [EF.mul, h]
    rcases eq_or_lt_of_le hbb with heq | hlt
    · have ht0 : EF.mul (.fin (bmin - r.oriAxis i)) .pinf = .nan := by
        simp [EF.mul, h, heq]
      simp only [ht0, ht1, EF.fmax_nan_right, EF.fmin_nan_right]
    · have ht0 : EF.mul (.fin (bmin - r.oriAxis i)) .pinf = .ninf := by
        have hne : bmin - r.oriAxis i ≠ 0 := by rw [h]; intro hc; linarith [sub_eq_zero.mp hc]
        have hlt2 : ¬ (0 < bmin - r.oriAxis i) := by rw [h]; intro hc; linarith
        simp [EF.mul, hne, hlt2]
      simp only [ht0, ht1, EF.fmin_nan_right, EF.fmax_ninf_right acc.1 h1]
  · have ht0 : EF.mul (.fin (bmin - r.oriAxis i)) .pinf = .ninf := by
      have hne : bmin - r.oriAxis i ≠ 0 := by intro hc; linarith [sub_eq_zero.mp hc]
      have hlt2 : ¬ (0 < bmin - r.oriAxis i) := by intro hc; linarith
      simp [EF.mul, hne, hlt2]
    have ht1 : EF.mul (.fin (bmax - r.oriAxis i)) .pinf = .pinf := by
      have hne : bmax - r.oriAxis i ≠ 0 := by intro hc; linarith [sub_eq_zero.mp hc]
      have hgt : 0 < bmax - r.oriAxis i := by linarith
      simp [EF.mul, hne, hgt]
    simp only [ht0, ht1, EF.fmax_ninf_right acc.1 h1, EF.fmin_pinf_right acc.2 h2]

theorem slab_fold_degenerate (b : Aabb) (r : Ray) (i : ℕ) (acc : EF × EF)
    (rest : List ℕ) (bmin bmax : ℚ)
    (hb : b.axis_interval i = ⟨.fin bmin, .fin bmax⟩)
    (hd : r.dirAxis i = 0) (hbb : bmin ≤ bmax)
    (hpos : r.oriAxis i = bmin ∨ r.oriAxis i = bmax ∨
      (bmin < r.oriAxis i ∧ r.oriAxis i < bmax))
    (h1 : acc.1 ≠ .nan) (h2 : acc.2 ≠ .nan) :
    b.slabFold r (i :: rest) acc =
      if EF.le acc.2 acc.1 then false else b.slabFold r rest acc := by
  have hs := slab_axis_degenerate b r i acc bmin bmax hb hd hbb hpos h1 h2
  simp only [Aabb.slabFold, hs]
  by_cases hle : EF.le acc.2 acc.1 <;> simp [hle]

/-- C10: in the slab test, a NaN slab parameter arises exactly when the
ray direction component is zero and the origin sits exactly on that slab
bound; Rust `max`/`min` return the non-NaN operand, so for such an axis
(and likewise for a zero direction with the origin strictly inside, where
the parameters are the infinities) the running `[t_min, t_max]` pair is
left unchanged and the axis never influences the hit/miss decision of
`Aabb::intersect`. -/
theorem C10_slab_nan_harmless :
    (∀ a : EF, EF.fmax a .nan = a ∧ EF.fmin a .nan = a) ∧
    (∀ bq ori dir : ℚ,
      EF.mul (EF.sub (.fin bq) (.fin ori)) (EF.div (.fin 1) (.fin dir)) = .nan ↔
        (dir = 0 ∧ bq = ori)) ∧
    (∀ (b : Aabb) (r : Ray) (i : ℕ) (acc : EF × EF) (bmin bmax : ℚ),
      b.axis_interval i = ⟨.fin bmin, .fin bmax⟩ → r.dirAxis i = 0 → bmin ≤ bmax →
      (r.oriAxis i = bmin ∨ r.oriAxis i = bmax ∨
        (bmin < r.oriAxis i ∧ r.oriAxis i < bmax)) →
      acc.1 ≠ .nan → acc.2 ≠ .nan →
      b.slabAxis r i acc = if EF.le acc.2 acc.1 then none else some acc) ∧
    (∀ (b : Aabb) (r : Ray) (i : ℕ) (acc : EF × EF) (rest : List ℕ) (bmin bmax : ℚ),
      b.axis_interval i = ⟨.fin bmin, .fin bmax⟩ → r.dirAxis i = 0 → bmin ≤ bmax →
      (r.oriAxis i = bmin ∨ r.oriAxis i = bmax ∨
        (bmin < r.oriAxis i ∧ r.oriAxis i < bmax)) →
      acc.1 ≠ .nan → acc.2 ≠ .nan →
      b.slabFold r (i :: rest) acc =
        if EF.le acc.2 acc.1 then false else b.slabFold r rest acc) ∧
    (∀ (b : Aabb) (r : Ray) (rayT : Interval) (bmin bmax : ℚ),
      b.axis_interval 0 = ⟨.fin bmin, .fin bmax⟩ → r.dirAxis 0 = 0 → bmin ≤ bmax →
      (r.oriAxis 0 = bmin ∨ r.oriAxis 0 = bmax ∨
        (bmin < r.oriAxis 0 ∧ r.oriAxis 0 < bmax)) →
      rayT.min ≠ .nan → rayT.max ≠ .nan →
      b.intersect r rayT =
        if EF.le rayT.max rayT.min then false
        else b.slabFold r [1, 2] (rayT.min, rayT.max)) := by
  refine ⟨fun a => ⟨EF.fmax_nan_right a, EF.fmin_nan_right a⟩, slab_nan_iff, ?_, ?_, ?_⟩
  · intro b r i acc bmin bmax hb hd hbb hpos h1 h2
    exact slab_axis_degenerate b r i acc bmin bmax hb hd hbb hpos h1 h2
  · intro b r i acc rest bmin bmax hb hd hbb hpos h1 h2
    exact slab_fold_degenerate b r i acc rest bmin bmax hb hd hbb hpos h1 h2
  · intro b r rayT bmin bmax hb hd hbb hpos h1 h2
    exact slab_fold_degenerate b r 0 (rayT.min, rayT.max) [1, 2] bmin bmax hb hd hbb hpos h1 h2

/-- Witness for C10: unit box, ray with `dir.x = 0` and `ori.x` exactly on
the lower x bound; the x axis is skipped by the slab test. -/
theorem C10_slab_nan_witness :
    (Aabb.new ⟨.fin 0, .fin 1⟩ ⟨.fin 0, .fin 1⟩ ⟨.fin 0, .fin 1⟩).intersect
        (Ray.new ⟨0, 1/2, 2⟩ ⟨0, 0, -1⟩ 0) (Interval.new (.fin eps3) .pinf) =
      (if EF.le EF.pinf (.fin eps3) then false
       else (Aabb.new ⟨.fin 0, .fin 1⟩ ⟨.fin 0, .fin 1⟩ ⟨.fin 0, .fin 1⟩).slabFold
         (Ray.new ⟨0, 1/2, 2⟩ ⟨0, 0, -1⟩ 0) [1, 2] (.fin eps3, .pinf)) :=
  C10_slab_nan_harmless.2.2.2.2
    (Aabb.new ⟨.fin 0, .fin 1⟩ ⟨.fin 0, .fin 1⟩ ⟨.fin 0, .fin 1⟩)
    (Ray.new ⟨0, 1/2, 2⟩ ⟨0, 0, -1⟩ 0) (Interval.new (.fin eps3) .pinf) 0 1
    rfl rfl (by norm_num) (Or.inl rfl) (fun h => EF.noConfusion h) (fun h => EF.noConfusion h)

end PT

namespace PT

theorem scatter_none_iff (m : Material) (fns : FloatFns) (g : Rng) (n v : Vec3) (ff : Bool) :
    (m.scatter fns g n v ff).1 = none ↔
      (m.transparent = true ∧ ¬ (g.vals g.pos < m.specProbability) ∧
       1 < m.transmitSin2 fns g n v ff) := by
  simp only [Material.scatter, Material.specProbability, Material.transmitSin2,
    Rng.random_bool, Rng.next]
  split_ifs with h1 h2 h3 <;> simp_all

theorem trace_ray_scatter_none (rd : Renderer) (fns : FloatFns) (ray : Ray) (n : ℕ)
    (g : Rng) (rec : HitRecord)
    (hI : rd.intersect fns ray (Interval.new (.fin eps3) .pinf) = some rec)
    (hS : ((rec.mat).scatter fns (rd.sample_lights fns rec ray.t (-ray.dir) g).2
        rec.normal (-ray.dir) rec.front_face).1 = none) :
    rd.trace_ray fns ray (n + 1) g =
      (rec.mat.emittance * rec.mat.color +
        (rd.sample_lights fns rec ray.t (-ray.dir) g).1,
       ((rec.mat).scatter fns (rd.sample_lights fns rec ray.t (-ray.dir) g).2
          rec.normal (-ray.dir) rec.front_face).2) := by
  rw [Renderer.trace_ray]
  simp only [hI]
  have heta : (rec.mat).scatter fns (rd.sample_lights fns rec ray.t (-ray.dir) g).2
      rec.normal (-ray.dir) rec.front_face =
      (((rec.mat).scatter fns (rd.sample_lights fns rec ray.t (-ray.dir) g).2
        rec.normal (-ray.dir) rec.front_face).1,
       ((rec.mat).scatter fns (rd.sample_lights fns rec ray.t (-ray.dir) g).2
        rec.normal (-ray.dir) rec.front_face).2) := rfl
  rw [heta, hS]

/-- C6: `Material::scatter` returns `None` exactly when the material is
transparent, the specular draw was not taken, and the sampled refraction
has a squared tangential length above 1 (total internal reflection); in
every other case it returns a sample.  The integrator treats a `None` as
zero indirect contribution: the bounce returns the emitted plus direct
radiance and recursion stops there, with no failure. -/
theorem C6_scatter_none_spec :
    (∀ (m : Material) (fns : FloatFns) (g : Rng) (n v : Vec3) (ff : Bool),
      (m.scatter fns g n v ff).1 = none ↔
        (m.transparent = true ∧ ¬ (g.vals g.pos < m.specProbability) ∧
         1 < m.transmitSin2 fns g n v ff)) ∧
    (∀ (rd : Renderer) (fns : FloatFns) (ray : Ray) (n : ℕ) (g : Rng) (rec : HitRecord),
      rd.intersect fns ray (Interval.new (.fin eps3) .pinf) = some rec →
      ((rec.mat).scatter fns (rd.sample_lights fns rec ray.t (-ray.dir) g).2
          rec.normal (-ray.dir) rec.front_face).1 = none →
      rd.trace_ray fns ray (n + 1) g =
        (rec.mat.emittance * rec.mat.color +
          (rd.sample_lights fns rec ray.t (-ray.dir) g).1,
         ((rec.mat).scatter fns (rd.sample_lights fns rec ray.t (-ray.dir) g).2
            rec.normal (-ray.dir) rec.front_face).2)) :=
  ⟨scatter_none_iff, trace_ray_scatter_none⟩

/-- Witness for C6: the transparent index-1/3 sphere under the `rngHalf`
stream takes the transmission branch, undergoes total internal reflection,
and the trace returns the direct-only radiance. -/
theorem C6_scatter_none_witness :
    rdTIR.trace_ray exactFns exRay (4 + 1) rngHalf =
      ((⟨⟨0,0,1⟩,4,⟨0,0,1⟩,true, some exMatTIR, 1/2, 0⟩ : HitRecord).mat.emittance *
          (⟨⟨0,0,1⟩,4,⟨0,0,1⟩,true, some exMatTIR, 1/2, 0⟩ : HitRecord).mat.color +
        (rdTIR.sample_lights exactFns ⟨⟨0,0,1⟩,4,⟨0,0,1⟩,true, some exMatTIR, 1/2, 0⟩
          exRay.t (-exRay.dir) rngHalf).1,
       (((⟨⟨0,0,1⟩,4,⟨0,0,1⟩,true, some exMatTIR, 1/2, 0⟩ : HitRecord).mat).scatter exactFns
          (rdTIR.sample_lights exactFns ⟨⟨0,0,1⟩,4,⟨0,0,1⟩,true, some exMatTIR, 1/2, 0⟩
            exRay.t (-exRay.dir) rngHalf).2
          (⟨⟨0,0,1⟩,4,⟨0,0,1⟩,true, some exMatTIR, 1/2, 0⟩ : HitRecord).normal
          (-exRay.dir)
          (⟨⟨0,0,1⟩,4,⟨0,0,1⟩,true, some exMatTIR, 1/2, 0⟩ : HitRecord).front_face).2) :=
  C6_scatter_none_spec.2 rdTIR exactFns exRay 4 rngHalf
    ⟨⟨0,0,1⟩,4,⟨0,0,1⟩,true, some exMatTIR, 1/2, 0⟩
    (by with_unfolding_all rfl) (by with_unfolding_all rfl)

end PT

namespace PT

theorem EF.le_trans_ef {a b c : EF} (h1 : EF.le a b = true) (h2 : EF.le b c = true) :
    EF.le a c = true := by
  cases a <;> cases b <;> cases c <;> simp_all [EF.le] <;> linarith

theorem EF.le_false_of_lt {a b : EF} (h : EF.lt a b = true) : EF.le b a = false := by
  cases a <;> cases b <;> simp_all [EF.lt, EF.le] <;> linarith

theorem linearScan_eq_scanState (fns : FloatFns) (r : Ray) (lo : EF) :
    ∀ (objs : List Object) (rec : Option HitRecord) (c : EF),
      linearScan fns r lo objs rec c = (scanState fns r lo objs (rec, c)).1 := by
  intro objs
  induction objs with
  | nil => intro rec c; rfl
  | cons o os ih =>
    intro rec c
    simp only [linearScan, scanState]
    rcases h : o.intersect fns r (Interval.new lo c) with _ | obj_rec
    · exact ih rec c
    · exact ih (some obj_rec) (.fin obj_rec.t)

theorem scanState_append (fns : FloatFns) (r : Ray) (lo : EF) :
    ∀ (xs ys : List Object) (p : Option HitRecord × EF),
      scanState fns r lo (xs ++ ys) p = scanState fns r lo ys (scanState fns r lo xs p) := by
  intro xs
  induction xs with
  | nil => intro ys p; rfl
  | cons x xs ih =>
    intro ys p
    simp only [List.cons_append, scanState]
    rcases h : x.intersect fns r (Interval.new lo p.2) with _ | obj_rec
    · exact ih ys p
    · exact ih ys _

theorem scanState_isSome (fns : FloatFns) (r : Ray) (lo : EF) :
    ∀ (objs : List Object) (rec0 : HitRecord) (c : EF),
      (scanState fns r lo objs (some rec0, c)).1.isSome = true := by
  intro objs
  induction objs with
  | nil => intro rec0 c; rfl
  | cons o os ih =>
    intro rec0 c
    simp only [scanState]
    rcases h : o.intersect fns r (Interval.new lo c) with _ | obj_rec
    · exact ih rec0 c
    · exact ih obj_rec _

theorem scan_tightening (fns : FloatFns) (r : Ray) (lo : EF) :
    ∀ (objs : List Object) (rec0 : HitRecord),
      (scanState fns r lo objs (some rec0, .fin rec0.t)).1 =
        ((scanState fns r lo objs (none, .fin rec0.t)).1).or (some rec0) := by
  intro objs
  induction objs with
  | nil => intro rec0; rfl
  | cons o os ih =>
    intro rec0
    simp only [scanState]
    rcases h : o.intersect fns r (Interval.new lo (.fin rec0.t)) with _ | obj_rec
    · exact ih rec0
    · have hs := scanState_isSome fns r lo os obj_rec (.fin obj_rec.t)
      rcases ho : (scanState fns r lo os (some obj_rec, .fin obj_rec.t)).1 with _ | x
      · rw [ho] at hs; exact Bool.noConfusion hs
      · simp [Option.or]

theorem scanState_closest (fns : FloatFns) (r : Ray) (lo : EF) :
    ∀ (objs : List Object) (hi : EF) (p : Option HitRecord × EF),
      (p.2 = match p.1 with | some rec => EF.fin rec.t | none => hi) →
      ((scanState fns r lo objs p).2 =
        match (scanState fns r lo objs p).1 with
        | some rec => EF.fin rec.t
        | none => hi) := by
  intro objs
  induction objs with
  | nil => intro hi p hp; exact hp
  | cons o os ih =>
    intro hi p hp
    simp only [scanState]
    rcases h : o.intersect fns r (Interval.new lo p.2) with _ | obj_rec
    · exact ih hi p hp
    · exact ih hi (some obj_rec, .fin obj_rec.t) rfl

theorem scan_all_none (fns : FloatFns) (r : Ray) (lo : EF) :
    ∀ (objs : List Object) (hi : EF),
      (∀ o ∈ objs, o.intersect fns r (Interval.new lo hi) = none) →
      scanState fns r lo objs (none, hi) = (none, hi) := by
  intro objs
  induction objs with
  | nil => intro hi _; rfl
  | cons o os ih =>
    intro hi hall
    simp only [scanState]
    rw [hall o (List.mem_cons_self o os)]
    exact ih hi (fun x hx => hall x (List.mem_cons_of_mem o hx))

theorem bvh_eq_leafScan (fns : FloatFns) (r : Ray) (lo : EF) :
    ∀ (t : BvhNode), TreeConservative fns r lo t →
      ∀ hi : EF, t.intersect fns r (Interval.new lo hi) =
        linearScan fns r lo t.leafObjects none hi := by
  intro t
  induction t with
  | leaf obj box =>
    intro hcons hi
    simp only [BvhNode.intersect, BvhNode.leafObjects, linearScan]
    by_cases hbox : box.intersect r (Interval.new lo hi) = true
    · simp only [hbox, Bool.not_true, Bool.false_eq_true, if_false]
      rcases h : obj.intersect fns r (Interval.new lo hi) with _ | obj_rec
      · rfl
      · rfl
    · have hnone : obj.intersect fns r (Interval.new lo hi) = none := by
        rcases h : obj.intersect fns r (Interval.new lo hi) with _ | obj_rec
        · rfl
        · exact absurd (hcons hi (by rw [h]; rfl)) hbox
      rw [Bool.not_eq_true] at hbox
      simp only [hbox, Bool.not_false, if_true, hnone]
  | node left right box ihl ihr =>
    intro hcons hi
    obtain ⟨hbox_cons, hlc, hrc⟩ := hcons
    have hunfold : (BvhNode.node left right box).intersect fns r (Interval.new lo hi) =
        if !(box.intersect r (Interval.new lo hi)) then none
        else (right.intersect fns r (Interval.new lo
              (((left.intersect fns r (Interval.new lo hi)).map
                 fun rec => EF.fin rec.t).getD hi))).or
             (left.intersect fns r (Interval.new lo hi)) := rfl
    rw [hunfold]
    simp only [BvhNode.leafObjects]
    by_cases hbox : box.intersect r (Interval.new lo hi) = true
    · simp only [hbox, Bool.not_true, Bool.false_eq_true, if_false]
      rw [linearScan_eq_scanState, scanState_append]
      have hP := scanState_closest fns r lo left.leafObjects hi (none, hi) rfl
      rcases hl : left.intersect fns r (Interval.new lo hi) with _ | lrec
      · have hsl : (scanState fns r lo left.leafObjects (none, hi)).1 = none := by
          rw [← linearScan_eq_scanState, ← ihl hlc hi, hl]
        have hstate : scanState fns r lo left.leafObjects (none, hi) = (none, hi) := by
          rw [hsl] at hP
          exact Prod.ext hsl hP
        rw [hstate]
        simp only [Option.map_none', Option.getD_none, Option.or_none]
        rw [← linearScan_eq_scanState, ← ihr hrc hi]
      · have hsl : (scanState fns r lo left.leafObjects (none, hi)).1 = some lrec := by
          rw [← linearScan_eq_scanState, ← ihl hlc hi, hl]
        have hstate : scanState fns r lo left.leafObjects (none, hi) =
            (some lrec, .fin lrec.t) := by
          rw [hsl] at hP
          exact Prod.ext hsl hP
        rw [hstate, scan_tightening, ← linearScan_eq_scanState, ← ihr hrc (.fin lrec.t)]
        simp only [Option.map_some', Option.getD_some]
    · have hall : ∀ o ∈ left.leafObjects ++ right.leafObjects,
          o.intersect fns r (Interval.new lo hi) = none := by
        intro o ho
        rcases h : o.intersect fns r (Interval.new lo hi) with _ | obj_rec
        · rfl
        · exact absurd (hbox_cons hi ⟨o, ho, by rw [h]; rfl⟩) hbox
      rw [Bool.not_eq_true] at hbox
      simp only [hbox, Bool.not_false, if_true]
      rw [linearScan_eq_scanState, scan_all_none fns r lo _ hi hall]

theorem minList_perm {l1 l2 : List ℚ} (h : l1.Perm l2) : minList l1 = minList l2 := by
  induction h with
  | nil => rfl
  | cons a h ih => simp only [minList, ih]
  | swap a b l =>
      simp only [minList]
      rcases minList l with _ | m
      · simp [min_comm]
      · simp only [Option.elim]
        rw [min_left_comm]
  | trans h1 h2 ih1 ih2 => exact ih1.trans ih2

theorem obj_narrow (fns : FloatFns) (r : Ray) (lo : EF) (o : Object)
    (hc : ObjCoherent fns r lo o) (t1 : ℚ) (hi : EF)
    (hle : EF.le (.fin t1) hi = true) :
    o.intersect fns r (Interval.new lo (.fin t1)) =
      match o.intersect fns r (Interval.new lo hi) with
      | some rec => if rec.t ≤ t1 then some rec else none
      | none => none := by
  obtain ⟨h1, h2, h3, h4⟩ := hc
  rcases hq : o.intersect fns r (Interval.new lo hi) with _ | rec
  · exact h2 hi (.fin t1) hle hq
  · show _ = if rec.t ≤ t1 then some rec else none
    by_cases hle2 : rec.t ≤ t1
    · rw [if_pos hle2]
      exact h3 hi (.fin t1) rec hq (by simp [EF.le, hle2]) hle
    · rw [if_neg hle2]
      exact h4 hi (.fin t1) rec hq (by simp [EF.lt]; linarith) hle

theorem cands_filter (fns : FloatFns) (r : Ray) (lo : EF) :
    ∀ (os : List Object), (∀ o ∈ os, ObjCoherent fns r lo o) →
    ∀ (t1 : ℚ) (hi : EF), EF.le (.fin t1) hi = true →
    os.filterMap (fun o => (o.intersect fns r (Interval.new lo (.fin t1))).map HitRecord.t) =
      (os.filterMap (fun o => (o.intersect fns r (Interval.new lo hi)).map HitRecord.t)).filter
        (fun b => decide (b ≤ t1)) := by
  intro os
  induction os with
  | nil => intro _ t1 hi _; rfl
  | cons o os ih =>
    intro hcoh t1 hi hle
    simp only [List.filterMap_cons]
    rw [obj_narrow fns r lo o (hcoh o (List.mem_cons_self o os)) t1 hi hle]
    have ih2 := ih (fun x hx => hcoh x (List.mem_cons_of_mem o hx)) t1 hi hle
    rcases hq : o.intersect fns r (Interval.new lo hi) with _ | rec
    · simpa using ih2
    · dsimp only
      by_cases hr : rec.t ≤ t1
      · rw [if_pos hr]
        simp only [Option.map_some', List.filterMap_cons, List.filter_cons,
          decide_eq_true hr, if_true]
        rw [ih2]
      · rw [if_neg hr]
        simp only [Option.map_some', Option.map_none', List.filter_cons]
        rw [if_neg (by simpa using hr)]
        simpa using ih2

theorem minList_filter_le (a : ℚ) :
    ∀ (l : List ℚ),
      (minList (l.filter (fun b => decide (b ≤ a)))).elim (some a) some = minList (a :: l) := by
  intro l
  induction l with
  | nil => rfl
  | cons b l ih =>
    by_cases hba : b ≤ a
    · rw [List.filter_cons_of_pos (by simpa using hba)]
      rcases hfl : minList (l.filter (fun b => decide (b ≤ a))) with _ | mf
      · rw [hfl] at ih
        simp only [Option.elim] at ih
        -- ih : some a = minList (a :: l)
        simp only [minList, hfl, Option.elim]
        rcases hml : minList l with _ | ml
        · simp only [minList, hml, Option.elim] at ih ⊢
          congr 1
          simp [min_def, hba]
        · simp only [minList, hml, Option.elim] at ih ⊢
          have hml2 : a ≤ ml := by
            have h := Option.some.inj ih
            calc a = a ⊓ ml := h
            _ ≤ ml := min_le_right _ _
          congr 1
          rw [min_eq_left (hba.trans hml2), min_eq_right hba]
      · rw [hfl] at ih
        simp only [Option.elim] at ih
        -- ih : some mf = minList (a :: l)
        simp only [minList, hfl, Option.elim]
        rcases hml : minList l with _ | ml
        · simp only [minList, hml, Option.elim] at ih ⊢
          simp only [Option.some.injEq] at ih
          congr 1
          subst ih
          simp [min_def, hba]
        · simp only [minList, hml, Option.elim] at ih ⊢
          simp only [Option.some.injEq] at ih
          congr 1
          rw [ih, min_left_comm]
    · rw [List.filter_cons_of_neg (by simpa using hba)]
      rw [ih]
      push_neg at hba
      rcases hml : minList l with _ | ml
      · simp only [minList, hml, Option.elim]
        congr 1
        rw [min_eq_left (le_of_lt hba)]
      · simp only [minList, hml, Option.elim]
        congr 1
        rw [min_left_comm]
        rw [min_eq_right (le_of_lt (lt_of_le_of_lt (min_le_left a ml) hba))]

theorem scan_t_minList (fns : FloatFns) (r : Ray) (lo : EF) :
    ∀ (objs : List Object), (∀ o ∈ objs, ObjCoherent fns r lo o) →
    ∀ hi : EF,
      (linearScan fns r lo objs none hi).map HitRecord.t =
        minList (objs.filterMap
          (fun o => (o.intersect fns r (Interval.new lo hi)).map HitRecord.t)) := by
  intro objs
  induction objs with
  | nil => intro _ hi; rfl
  | cons o os ih =>
    intro hcoh hi
    have hcoh2 : ∀ x ∈ os, ObjCoherent fns r lo x :=
      fun x hx => hcoh x (List.mem_cons_of_mem o hx)
    simp only [linearScan, List.filterMap_cons]
    rcases hq : o.intersect fns r (Interval.new lo hi) with _ | r1
    · simp only [Option.map_none']
      exact ih hcoh2 hi
    · simp only [Option.map_some']
      have hle : EF.le (.fin r1.t) hi = true :=
        ((hcoh o (List.mem_cons_self o os)).1 hi r1 hq).2
      rw [linearScan_eq_scanState, scan_tightening, ← linearScan_eq_scanState]
      have ihx := ih hcoh2 (.fin r1.t)
      rw [cands_filter fns r lo os hcoh2 r1.t hi hle] at ihx
      rw [← minList_filter_le r1.t]
      rcases hX : linearScan fns r lo os none (.fin r1.t) with _ | x
      · rw [hX] at ihx
        simp only [Option.map_none'] at ihx
        rw [← ihx]
        rfl
      · rw [hX] at ihx
        simp only [Option.map_some'] at ihx
        rw [← ihx]
        rfl

theorem scan_t_perm (fns : FloatFns) (r : Ray) (lo : EF)
    (objs1 objs2 : List Object) (hperm : objs1.Perm objs2)
    (hcoh : ∀ o ∈ objs2, ObjCoherent fns r lo o) (hi : EF) :
    (linearScan fns r lo objs1 none hi).map HitRecord.t =
      (linearScan fns r lo objs2 none hi).map HitRecord.t := by
  have hcoh1 : ∀ o ∈ objs1, ObjCoherent fns r lo o :=
    fun o ho => hcoh o (hperm.mem_iff.mp ho)
  rw [scan_t_minList fns r lo objs1 hcoh1 hi, scan_t_minList fns r lo objs2 hcoh hi]
  exact minList_perm (hperm.filterMap _)

theorem contains_full (x : ℚ) : (Interval.new EF.ninf EF.pinf).contains x = true := rfl

theorem contains_new (lo hi : EF) (x : ℚ) :
    (Interval.new lo hi).contains x = (EF.le lo (.fin x) && EF.le (.fin x) hi) := rfl

theorem quad_obj_canonical (fns : FloatFns) (r : Ray) (q : Quad) (m : Material)
    (I : Interval) :
    Object.intersect ⟨.quad q, m⟩ fns r I =
      if I.contains ((q.D - q.normal.dot r.ori) / (q.normal.dot r.dir)) = true
      then Object.intersect ⟨.quad q, m⟩ fns r (Interval.new .ninf .pinf)
      else none := by
  simp only [Object.intersect, Shape.intersect, Quad.intersect]
  by_cases hd : |q.normal.dot r.dir| < f32Epsilon
  · simp [hd]
  · simp only [if_neg hd, contains_full, Bool.not_true, Bool.false_eq_true, if_false]
    by_cases hc : I.contains ((q.D - q.normal.dot r.ori) / (q.normal.dot r.dir)) = true
    · simp [hc]
    · rw [Bool.not_eq_true] at hc
      simp [hc]

theorem quad_obj_t (fns : FloatFns) (r : Ray) (q : Quad) (m : Material)
    (rec : HitRecord)
    (h : Object.intersect ⟨.quad q, m⟩ fns r (Interval.new .ninf .pinf) = some rec) :
    rec.t = (q.D - q.normal.dot r.ori) / (q.normal.dot r.dir) := by
  simp only [Object.intersect] at h
  rw [Option.map_eq_some'] at h
  obtain ⟨a, ha, hb⟩ := h
  have hat : rec.t = a.t := by rw [← hb]
  rw [hat]
  simp only [Shape.intersect, Quad.intersect, contains_full, Bool.not_true,
    Bool.false_eq_true, if_false] at ha
  split at ha
  · exact absurd ha (by simp)
  · split at ha
    · exact absurd ha (by simp)
    · rw [Option.some.injEq] at ha
      rw [← ha]
      rfl

theorem quad_coherent (fns : FloatFns) (r : Ray) (lo : EF) (q : Quad) (m : Material) :
    ObjCoherent fns r lo ⟨.quad q, m⟩ := by
  refine ⟨?_, ?_, ?_, ?_⟩
  · intro hi rec h
    rw [quad_obj_canonical] at h
    by_cases hc : (Interval.new lo hi).contains
        ((q.D - q.normal.dot r.ori) / (q.normal.dot r.dir)) = true
    · rw [if_pos hc] at h
      have ht : rec.t = (q.D - q.normal.dot r.ori) / (q.normal.dot r.dir) :=
        quad_obj_t fns r q m rec h
      rw [ht]
      rw [contains_new, Bool.and_eq_true] at hc
      exact hc
    · rw [if_neg hc] at h
      exact absurd h (by simp)
  · intro hi hi2 hle h
    rw [quad_obj_canonical] at h ⊢
    by_cases hc2 : (Interval.new lo hi2).contains
        ((q.D - q.normal.dot r.ori) / (q.normal.dot r.dir)) = true
    · rw [if_pos hc2]
      rw [contains_new, Bool.and_eq_true] at hc2
      have hc : (Interval.new lo hi).contains
          ((q.D - q.normal.dot r.ori) / (q.normal.dot r.dir)) = true := by
        rw [contains_new, Bool.and_eq_true]
        exact ⟨hc2.1, EF.le_trans_ef hc2.2 hle⟩
      rw [if_pos hc] at h
      exact h
    · rw [if_neg hc2]
  · intro hi hi2 rec h h2 h3
    rw [quad_obj_canonical] at h ⊢
    by_cases hc : (Interval.new lo hi).contains
        ((q.D - q.normal.dot r.ori) / (q.normal.dot r.dir)) = true
    · rw [if_pos hc] at h
      have ht : rec.t = (q.D - q.normal.dot r.ori) / (q.normal.dot r.dir) :=
        quad_obj_t fns r q m rec h
      rw [contains_new, Bool.and_eq_true] at hc
      have hc2 : (Interval.new lo hi2).contains
          ((q.D - q.normal.dot r.ori) / (q.normal.dot r.dir)) = true := by
        rw [contains_new, Bool.and_eq_true]
        exact ⟨hc.1, by rw [← ht]; exact h2⟩
      rw [if_pos hc2]
      exact h
    · rw [if_neg hc] at h
      exact absurd h (by simp)
  · intro hi hi2 rec h hlt h3
    rw [quad_obj_canonical] at h ⊢
    by_cases hc : (Interval.new lo hi).contains
        ((q.D - q.normal.dot r.ori) / (q.normal.dot r.dir)) = true
    · rw [if_pos hc] at h
      have ht : rec.t = (q.D - q.normal.dot r.ori) / (q.normal.dot r.dir) :=
        quad_obj_t fns r q m rec h
      have hc2 : (Interval.new lo hi2).contains
          ((q.D - q.normal.dot r.ori) / (q.normal.dot r.dir)) = false := by
        rw [contains_new]
        have := EF.le_false_of_lt hlt
        rw [ht] at this
        simp [this]
      rw [if_neg (by simp [hc2])]
    · rw [if_neg hc] at h
      exact absurd h (by simp)

end PT

namespace PT

theorem slabAxis_eq (b : Aabb) (r : Ray) (i : ℕ) (acc : EF × EF) :
    b.slabAxis r i acc =
      if EF.le (EF.fmin acc.2 (slabP b r i).2) (EF.fmax acc.1 (slabP b r i).1) then none
      else some (EF.fmax acc.1 (slabP b r i).1, EF.fmin acc.2 (slabP b r i).2) := rfl

theorem EF.fmin_mono_left {a b : EF} (p : EF) (h : EF.le a b = true) :
    EF.le (EF.fmin a p) (EF.fmin b p) = true := by
  cases a <;> cases b <;> cases p <;>
    simp_all [EF.fmin, EF.le] <;> split_ifs <;> simp_all [EF.le] <;> linarith

theorem slabFold_mono (b : Aabb) (r : Ray) :
    ∀ (axes : List ℕ) (tmin c1 c2 : EF), EF.le c1 c2 = true →
      b.slabFold r axes (tmin, c1) = true → b.slabFold r axes (tmin, c2) = true := by
  intro axes
  induction axes with
  | nil => intro _ _ _ _ _; rfl
  | cons i rest ih =>
    intro tmin c1 c2 hle h
    simp only [Aabb.slabFold, slabAxis_eq] at h ⊢
    by_cases h1 : EF.le (EF.fmin c1 (slabP b r i).2) (EF.fmax tmin (slabP b r i).1) = true
    · rw [if_pos h1] at h
      exact absurd h (by simp)
    · rw [if_neg h1] at h
      have hmono : EF.le (EF.fmin c1 (slabP b r i).2) (EF.fmin c2 (slabP b r i).2) = true :=
        EF.fmin_mono_left _ hle
      have h2 : ¬ (EF.le (EF.fmin c2 (slabP b r i).2) (EF.fmax tmin (slabP b r i).1) = true) :=
        fun hcon => h1 (EF.le_trans_ef hmono hcon)
      rw [if_neg h2]
      exact ih (EF.fmax tmin (slabP b r i).1) _ _ hmono h

theorem exObjW_char (hi : EF) :
    exObjW.intersect exactFns exRay (Interval.new (.fin eps3) hi) =
      if EF.le (.fin 4) hi = true then some exRecW else none := by
  have hfull : Object.intersect ⟨.quad exQuadW, exMatRed⟩ exactFns exRay
      (Interval.new (.fin eps3) .pinf) = some exRecW := by with_unfolding_all rfl
  obtain ⟨h1, h2, h3, h4⟩ := quad_coherent exactFns exRay (.fin eps3) exQuadW exMatRed
  show Object.intersect ⟨.quad exQuadW, exMatRed⟩ exactFns exRay
      (Interval.new (.fin eps3) hi) = _
  rcases hi with _ | _ | _ | q
  · rw [if_neg (by decide)]
    with_unfolding_all rfl
  · rw [if_pos (show EF.le (.fin 4) EF.pinf = true from rfl)]
    exact hfull
  · rw [if_neg (by decide)]
    with_unfolding_all rfl
  · by_cases h4q : (4:ℚ) ≤ q
    · rw [if_pos (by simpa [EF.le] using h4q)]
      refine h3 .pinf (.fin q) exRecW hfull ?_ rfl
      show EF.le (.fin exRecW.t) (.fin q) = true
      simp [exRecW, EF.le, h4q]
    · rw [if_neg (by simp [EF.le, h4q])]
      refine h4 .pinf (.fin q) exRecW hfull ?_ rfl
      show EF.lt (.fin q) (.fin exRecW.t) = true
      simp only [exRecW, EF.lt]
      simp
      linarith [lt_of_not_le h4q]

theorem exObjW_conservative :
    TreeConservative exactFns exRay (.fin eps3) (.leaf exObjW exObjW.bbox) := by
  intro hi hsome
  rw [exObjW_char hi] at hsome
  by_cases hle : EF.le (.fin 4) hi = true
  · have hbase : Aabb.slabFold exObjW.bbox exRay [0, 1, 2] (.fin eps3, .fin 4) = true := by
      with_unfolding_all rfl
    show Aabb.slabFold exObjW.bbox exRay [0, 1, 2] (.fin eps3, hi) = true
    exact slabFold_mono exObjW.bbox exRay [0, 1, 2] (.fin eps3) (.fin 4) hi hle hbase
  · rw [if_neg hle] at hsome
    exact absurd hsome (by simp)

/-- C1 (amended): under the two semantic premises the claim's equivalence
does hold for the *hit parameter*: for a BVH built from the scene's object
list whose cached boxes are conservative for the query ray and whose
objects answer interval queries coherently, `BvhNode::intersect` equals the
linear scan over the leaf order exactly (record for record), the leaves are
a permutation of the scene objects, and the BVH result and the no-BVH
`Renderer::intersect` result agree on hit/miss and on the hit parameter
`t`.  Agreement of the full record (normal, material) fails in general:
see the counterexample, where two objects tie at the same `t`. -/
theorem C1_bvh_vs_linear_scan (fns : FloatFns) (r : Ray) (lo hi : EF)
    (objs : List Object) (t : BvhNode) (rd : Renderer)
    (hbuild : BvhNode.build objs = some t)
    (hcons : TreeConservative fns r lo t)
    (hcoh : ∀ o ∈ objs, ObjCoherent fns r lo o)
    (hbvh : rd.scene.bvh = none) (hobjs : rd.scene.objects = objs) :
    t.leafObjects.Perm objs ∧
    t.intersect fns r (Interval.new lo hi) =
      linearScan fns r lo t.leafObjects none hi ∧
    (t.intersect fns r (Interval.new lo hi)).map HitRecord.t =
      (rd.intersect fns r (Interval.new lo hi)).map HitRecord.t := by
  have hperm : t.leafObjects.Perm objs := buildAux_leaf_perm objs.length objs t hbuild
  refine ⟨hperm, bvh_eq_leafScan fns r lo t hcons hi, ?_⟩
  rw [bvh_eq_leafScan fns r lo t hcons hi]
  have hrd : rd.intersect fns r (Interval.new lo hi) = linearScan fns r lo objs none hi := by
    simp only [Renderer.intersect, hbvh, hobjs, Interval.new]
  rw [hrd]
  exact scan_t_perm fns r lo t.leafObjects objs hperm hcoh hi

/-- C1 counterexample: two quads touching the ray at the same parameter
`t = 4`.  The BVH (which visits the x-sorted order and prefers the right
subtree) reports the quad with normal `(0, 3/5, 4/5)`, while the no-BVH
linear scan of `Renderer::intersect` (which keeps the later scene-order
hit) reports the quad with normal `(3/5, 0, 4/5)`: identical `t`, grossly
different normals, refuting "the same ... normal up to floating-point
tolerance". -/
theorem C1_counterexample_tie_normal :
    (BvhNode.build [exObjY, exObjX]).map (fun t =>
        (t.intersect exactFns exRay exInterval).map fun rec => (rec.t, rec.normal))
      = some (some (4, ⟨0, 3/5, 4/5⟩)) ∧
    (exRenderer.intersect exactFns exRay exInterval).map (fun rec => (rec.t, rec.normal))
      = some (4, ⟨3/5, 0, 4/5⟩) :=
  ⟨by with_unfolding_all rfl, by with_unfolding_all rfl⟩

/-- Witness for C1 (amended): the single-quad scene `exObjW` discharges
the build, conservativeness and coherence hypotheses concretely. -/
theorem C1_bvh_vs_linear_scan_witness :
    (BvhNode.leaf exObjW exObjW.bbox).leafObjects.Perm [exObjW] ∧
    (BvhNode.leaf exObjW exObjW.bbox).intersect exactFns exRay
        (Interval.new (.fin eps3) .pinf) =
      linearScan exactFns exRay (.fin eps3)
        (BvhNode.leaf exObjW exObjW.bbox).leafObjects none .pinf ∧
    ((BvhNode.leaf exObjW exObjW.bbox).intersect exactFns exRay
        (Interval.new (.fin eps3) .pinf)).map HitRecord.t =
      (exRendererW.intersect exactFns exRay (Interval.new (.fin eps3) .pinf)).map
        HitRecord.t :=
  C1_bvh_vs_linear_scan exactFns exRay (.fin eps3) .pinf [exObjW]
    (BvhNode.leaf exObjW exObjW.bbox) exRendererW
    (by with_unfolding_all rfl)
    exObjW_conservative
    (by
      intro o ho
      rw [List.mem_singleton] at ho
      subst ho
      exact quad_coherent exactFns exRay (.fin eps3) exQuadW exMatRed)
    rfl rfl

end PT
